import Mathlib

/-! Shallow embedding of the cascade-splits program (programs/cascade-splits/src):
state records, checked 64/128-bit arithmetic, the instruction handlers
(create/update/close split config, execute_split, protocol initialization,
fee-wallet update, two-step authority transfer), and theorems about them.

Machine integers are modelled as `Nat` with explicit `< 2^64` (resp. `2^128`,
`2^32`) range checks exactly where the source performs checked arithmetic or
lossy conversions.  Addresses (`Pubkey`) are modelled as `Nat`, with `0`
playing the role of `Pubkey::default()`.  Fallible handlers return
`Except ErrorCode _`; an `Except.error` result models a failed (and hence
fully rolled-back) call.
-/

namespace Cascade

/-- 2^64, the exclusive upper bound of `u64`. -/
def U64 : Nat := 18446744073709551616

/-- 2^128, the exclusive upper bound of `u128`. -/
def U128 : Nat := 340282366920938463463374607431768211456

/-- 2^32, the exclusive upper bound of `u32`. -/
def U32 : Nat := 4294967296

/-- `u64::checked_add`: `none` when the mathematical sum does not fit in 64 bits. -/
def checkedAdd64 (a b : Nat) : Option Nat :=
  if a + b < U64 then some (a + b) else none

/-- `u32::checked_add`: `none` when the mathematical sum does not fit in 32 bits. -/
def checkedAdd32 (a b : Nat) : Option Nat :=
  if a + b < U32 then some (a + b) else none

/-- `checked_sub` on unsigned integers: `none` on underflow. -/
def checkedSub (a b : Nat) : Option Nat :=
  if b ≤ a then some (a - b) else none

/-- `u128::checked_mul`: `none` when the product does not fit in 128 bits. -/
def checkedMul128 (a b : Nat) : Option Nat :=
  if a * b < U128 then some (a * b) else none

/-- `u128::checked_div`: `none` only for division by zero. -/
def checkedDiv (a b : Nat) : Option Nat :=
  if b = 0 then none else some (a / b)

/-- Error codes of the program (errors.rs). -/
inductive ErrorCode where
  | InvalidRecipientCount
  | InvalidSplitTotal
  | DuplicateRecipient
  | ZeroAddress
  | ZeroPercentage
  | RecipientATADoesNotExist
  | RecipientATAInvalid
  | RecipientATAWrongOwner
  | RecipientATAWrongMint
  | VaultNotEmpty
  | InvalidVault
  | InsufficientRemainingAccounts
  | MathOverflow
  | MathUnderflow
  | InvalidProtocolFeeRecipient
  | Unauthorized
  | AlreadyInitialized
  | UnclaimedNotEmpty
  | InvalidTokenProgram
  | NoPendingTransfer
  | InvalidRentDestination
  deriving DecidableEq, Repr

/-- Program id of the legacy SPL token program, as an abstract address code. -/
def tokenProgID : Nat := 1

/-- Program id of the Token-2022 program, as an abstract address code. -/
def token2022ProgID : Nat := 2

/-- Snapshot of an externally supplied token-account reference
(an `AccountInfo` in the source): its address, writability, whether its data
is empty (account does not exist), its owning program, whether it
deserializes as a token account, and — when it does — the recorded frozen
state, owner wallet and mint. -/
structure Ata where
  key : Nat
  isWritable : Bool
  dataEmpty : Bool
  ownerProg : Nat
  deserOk : Bool
  frozenFlag : Bool
  tokOwner : Nat
  tokMint : Nat
  deriving DecidableEq, Repr

/-- `is_account_frozen` (utils.rs): deserialize and test for the Frozen state;
a non-deserializable account reports `false`. -/
def is_account_frozen (a : Ata) : Bool :=
  a.deserOk && a.frozenFlag

/-- Model of `get_associated_token_address_with_program_id`: a deterministic
(injective) derivation of the canonical receiving-account address from
(owner wallet, mint, token program). -/
def ataAddr (owner mint prog : Nat) : Nat :=
  Nat.pair owner (Nat.pair mint prog)

/-- Whether an account reference is owned by a recognized token program. -/
def validOwnerProg (a : Ata) : Prop :=
  a.ownerProg = tokenProgID ∨ a.ownerProg = token2022ProgID

instance (a : Ata) : Decidable (validOwnerProg a) := by
  unfold validOwnerProg; infer_instance

/-- A recipient entry of a split configuration (state.rs). -/
structure Recipient where
  address : Nat
  percentage_bps : Nat
  deriving DecidableEq, Repr

/-- An unclaimed-liability entry of a split configuration (state.rs). -/
structure UnclaimedAmount where
  recipient : Nat
  amount : Nat
  timestamp : Int
  deriving DecidableEq, Repr

/-- The per-split accounting record (state.rs `SplitConfig`, together with the
`rent_payer` and `last_activity` fields the handlers read and write). -/
structure SplitConfig where
  version : Nat
  authority : Nat
  mint : Nat
  vault : Nat
  unique_id : Nat
  bump : Nat
  recipient_count : Nat
  recipients : List Recipient
  unclaimed_amounts : List UnclaimedAmount
  protocol_unclaimed : Nat
  last_activity : Int
  rent_payer : Nat
  deriving DecidableEq, Repr

/-- The protocol-wide singleton record (state.rs `ProtocolConfig`). -/
structure ProtocolConfig where
  authority : Nat
  pending_authority : Nat
  fee_wallet : Nat
  bump : Nat
  deriving DecidableEq, Repr

/-! Authority handover and protocol configuration. -/

/-- `accept_protocol_authority::handler`: requires a pending transfer and that
the signer is exactly the pending authority; completes the transfer and
clears `pending_authority`. -/
def accept_protocol_authority (pc : ProtocolConfig) (signer : Nat) :
    Except ErrorCode ProtocolConfig :=
  if pc.pending_authority = 0 then
    .error .NoPendingTransfer
  else if pc.pending_authority ≠ signer then
    .error .Unauthorized
  else
    .ok { pc with authority := signer, pending_authority := 0 }

/-- External view of the program's upgradeable-loader program-data account,
used by `initialize_protocol` to authenticate the deployer. -/
structure ProgramData where
  keyIsExpectedPda : Bool
  dataLen : Nat
  hasUpgradeAuthority : Bool
  upgradeAuthority : Nat
  deriving DecidableEq, Repr

/-- `initialize_protocol::handler`: rejects a zero fee wallet first, then
authenticates the caller as the program upgrade authority, then creates the
protocol configuration with no pending transfer. -/
def initialize_protocol (feeWallet authority : Nat) (pd : ProgramData)
    (bump : Nat) : Except ErrorCode ProtocolConfig :=
  if feeWallet = 0 then
    .error .ZeroAddress
  else if ¬ pd.keyIsExpectedPda then
    .error .Unauthorized
  else if pd.dataLen < 45 then
    .error .Unauthorized
  else if ¬ pd.hasUpgradeAuthority then
    .error .Unauthorized
  else if pd.upgradeAuthority ≠ authority then
    .error .Unauthorized
  else
    .ok { authority := authority, pending_authority := 0,
          fee_wallet := feeWallet, bump := bump }

/-- `update_protocol_config`: the account constraint requires the signer to be
the current authority; the handler then rejects a zero fee wallet and
otherwise replaces `fee_wallet`. -/
def update_protocol_config (pc : ProtocolConfig) (signer newFeeWallet : Nat) :
    Except ErrorCode ProtocolConfig :=
  if signer ≠ pc.authority then
    .error .Unauthorized
  else if newFeeWallet = 0 then
    .error .ZeroAddress
  else
    .ok { pc with fee_wallet := newFeeWallet }

/-! Share math (utils.rs). -/

/-- `calculate_recipient_amount` (utils.rs): widen to u128, checked multiply,
checked divide by 10000, convert back to u64 with a range check. -/
def calculate_recipient_amount (total bps : Nat) : Option Nat :=
  (checkedMul128 total bps).bind fun p =>
    (checkedDiv p 10000).bind fun q =>
      if q < U64 then some q else none

/-- `sum_recipient_bps` (utils.rs): checked u32 accumulation of the basis
points of a recipient list. -/
def sum_recipient_bps (rs : List Recipient) : Option Nat :=
  rs.foldlM (fun acc r => checkedAdd32 acc r.percentage_bps) 0

/-! Account validation and transfer (utils.rs). -/

/-- `validate_and_send_to_recipient` (utils.rs): existence, canonical ATA
address, token-program ownership, deserializability, recorded owner and mint
are all checked in order; on success the checked transfer is issued (the
external ledger transfer itself is a collaborator and is modelled as
succeeding). -/
def validate_and_send_to_recipient (a : Ata) (r : Recipient)
    (mintKey tokenProg : Nat) : Except ErrorCode Unit :=
  if a.dataEmpty then .error .RecipientATADoesNotExist
  else if a.key ≠ ataAddr r.address mintKey tokenProg then .error .RecipientATAInvalid
  else if ¬ validOwnerProg a then .error .InvalidTokenProgram
  else if ¬ a.deserOk then .error .RecipientATAInvalid
  else if a.tokOwner ≠ r.address then .error .RecipientATAWrongOwner
  else if a.tokMint ≠ mintKey then .error .RecipientATAWrongMint
  else .ok ()

/-- `validate_recipient_ata` (utils.rs), used at create time: existence,
token-program ownership, deserializability, recorded owner and mint. -/
def validate_recipient_ata (a : Ata) (recipientAddress mint : Nat) :
    Except ErrorCode Unit :=
  if a.dataEmpty then .error .RecipientATADoesNotExist
  else if ¬ validOwnerProg a then .error .InvalidTokenProgram
  else if ¬ a.deserOk then .error .RecipientATAInvalid
  else if a.tokOwner ≠ recipientAddress then .error .RecipientATAWrongOwner
  else if a.tokMint ≠ mint then .error .RecipientATAWrongMint
  else .ok ()

/-! Config lifecycle. -/

/-- Recipient input of `create_split_config` (address, basis points). -/
structure RecipientInput where
  address : Nat
  percentage_bps : Nat
  deriving DecidableEq, Repr

/-- The per-entry validation loop of `create_split_config::handler`: for each
entry (in order) reject a zero address, a zero percentage, and a duplicate of
any later entry. -/
def checkRecipientEntries : List RecipientInput → Except ErrorCode Unit
  | [] => .ok ()
  | r :: rest =>
    if r.address = 0 then .error .ZeroAddress
    else if r.percentage_bps = 0 then .error .ZeroPercentage
    else if rest.any (fun o => o.address = r.address) then .error .DuplicateRecipient
    else checkRecipientEntries rest

/-- The ATA-existence loop of `create_split_config::handler`. -/
def checkRecipientAtas (mint : Nat) :
    List (RecipientInput × Ata) → Except ErrorCode Unit
  | [] => .ok ()
  | (r, a) :: rest =>
    match validate_recipient_ata a r.address mint with
    | .error e => .error e
    | .ok _ => checkRecipientAtas mint rest

/-- `MAX_RECIPIENTS` (constants.rs). -/
def MAX_RECIPIENTS : Nat := 20

/-- `MIN_RECIPIENTS` (constants.rs). -/
def MIN_RECIPIENTS : Nat := 1

/-- `REQUIRED_SPLIT_TOTAL` (constants.rs): recipients must total 9900 bps. -/
def REQUIRED_SPLIT_TOTAL : Nat := 9900

/-- `create_split_config::handler`: validates the count, the checked bps sum
against 9900, each entry (zero address / zero percentage / duplicates), the
number of supplied account references, and each recipient's receiving
account; then builds the zero-initialized record, padding the fixed arrays
to `MAX_RECIPIENTS`, and records the paying party as `rent_payer`. -/
def create_split_config (authority payer uniqueId bump vaultKey mint : Nat)
    (recipients : List RecipientInput) (atas : List Ata) :
    Except ErrorCode SplitConfig :=
  let count := recipients.length
  if ¬ (MIN_RECIPIENTS ≤ count ∧ count ≤ MAX_RECIPIENTS) then
    .error .InvalidRecipientCount
  else
    match recipients.foldlM (fun acc r => checkedAdd32 acc r.percentage_bps) 0 with
    | none => .error .MathOverflow
    | some totalBps =>
      if totalBps ≠ REQUIRED_SPLIT_TOTAL then .error .InvalidSplitTotal
      else
        match checkRecipientEntries recipients with
        | .error e => .error e
        | .ok _ =>
          if atas.length < count then .error .InsufficientRemainingAccounts
          else
            match checkRecipientAtas mint (recipients.zip atas) with
            | .error e => .error e
            | .ok _ =>
              .ok { version := 1
                    authority := authority
                    mint := mint
                    vault := vaultKey
                    unique_id := uniqueId
                    bump := bump
                    recipient_count := count
                    recipients :=
                      recipients.map (fun r =>
                        { address := r.address, percentage_bps := r.percentage_bps })
                      ++ List.replicate (MAX_RECIPIENTS - count)
                          { address := 0, percentage_bps := 0 }
                    unclaimed_amounts :=
                      List.replicate MAX_RECIPIENTS
                        { recipient := 0, amount := 0, timestamp := 0 }
                    protocol_unclaimed := 0
                    last_activity := 0
                    rent_payer := payer }

/-- `close_split_config`: account constraints check the controller signature
and an empty vault; the handler then checks the rent destination against the
recorded `rent_payer` and that every active unclaimed entry and the protocol
liability are zero, and on success closes both accounts, sending their
storage deposit to the rent destination (= the recorded `rent_payer`).  The
returned value is the address that receives the reclaimed deposit. -/
def close_split_config (cfg : SplitConfig) (vaultBalance : Nat)
    (signer rentDestination : Nat) : Except ErrorCode Nat :=
  if signer ≠ cfg.authority then .error .Unauthorized
  else if vaultBalance ≠ 0 then .error .VaultNotEmpty
  else if rentDestination ≠ cfg.rent_payer then .error .InvalidRentDestination
  else if (cfg.unclaimed_amounts.take cfg.recipient_count).any
            (fun u => u.amount ≠ 0) then .error .UnclaimedNotEmpty
  else if cfg.protocol_unclaimed ≠ 0 then .error .UnclaimedNotEmpty
  else .ok rentDestination

/-! Distribution engine (execute_split.rs). -/

/-- Per-call environment of `execute_split`: the vault balance, protocol fee
wallet, mint, token program, the supplied receiving-account references
(`remaining_accounts`, one per active recipient plus a trailing protocol-fee
account), and the clock. -/
structure ExecEnv where
  vaultBalance : Nat
  feeWallet : Nat
  mintKey : Nat
  tokenProg : Nat
  remaining : List Ata
  now : Int
  deriving DecidableEq, Repr

/-- Result of a successful `execute_split` call: the computed available
balance, the event counters (`distributed`, `held_as_unclaimed`,
`protocol_fee`, the portion of it actually sent, `unclaimed_cleared`,
`protocol_unclaimed_cleared`) and the written-back liability state. -/
structure ExecOut where
  available : Nat
  distributed : Nat
  heldAsUnclaimed : Nat
  protocolFee : Nat
  protocolFeeSent : Nat
  unclaimedCleared : Nat
  protocolUnclaimedCleared : Nat
  newUnclaimed : List UnclaimedAmount
  newProtocolUnclaimed : Nat
  deriving DecidableEq, Repr

/-- The checked accumulation of pre-existing recipient liabilities
(`execute_split.rs` lines 93–97): entries with positive amount are summed
with `u64::checked_add`. -/
def sumUnclaimedChecked : List UnclaimedAmount → Nat → Option Nat
  | [], acc => some acc
  | u :: rest, acc =>
    if u.amount > 0 then
      match checkedAdd64 acc u.amount with
      | none => none
      | some acc' => sumUnclaimedChecked rest acc'
    else sumUnclaimedChecked rest acc

/-- The inline share computation of `execute_split.rs` lines 126–132: widen
to u128, checked multiply by the bps, checked divide by 10000, and narrow
back to u64, each failure mapped to `MathOverflow`. -/
def shareAmount (total bps : Nat) : Except ErrorCode Nat :=
  match checkedMul128 total bps with
  | none => .error .MathOverflow
  | some p =>
    match checkedDiv p 10000 with
    | none => .error .MathOverflow
    | some q => if q < U64 then .ok q else .error .MathOverflow

/-- Positional zip of the recipient table, the unclaimed entries and the
supplied account references (the three parallel arrays the handler indexes
with the same `i`). -/
def zip3 : List Recipient → List UnclaimedAmount → List Ata →
    List (Recipient × UnclaimedAmount × Ata)
  | r :: rs, u :: ul, a :: al => (r, u, a) :: zip3 rs ul al
  | _, _, _ => []

/-- The per-recipient distribution loop (`execute_split.rs` lines 120–177),
over the zipped (recipient, unclaimed entry, account reference) triples, with
the running `distributed` and `held_as_unclaimed` accumulators.  Returns the
final accumulators and the updated local copy of the unclaimed entries. -/
def distLoop (mintKey tokenProg : Nat) (now : Int) (available : Nat) :
    List (Recipient × UnclaimedAmount × Ata) → Nat → Nat →
    Except ErrorCode (Nat × Nat × List UnclaimedAmount)
  | [], distributed, held => .ok (distributed, held, [])
  | (r, u, a) :: rest, distributed, held =>
    match shareAmount available r.percentage_bps with
    | .error e => .error e
    | .ok amount =>
      if amount = 0 then
        match distLoop mintKey tokenProg now available rest distributed held with
        | .error e => .error e
        | .ok (d, h, us) => .ok (d, h, u :: us)
      else if a.dataEmpty = true ∨ is_account_frozen a = true then
        match checkedAdd64 u.amount amount with
        | none => .error .MathOverflow
        | some newAmt =>
          match checkedAdd64 held amount with
          | none => .error .MathOverflow
          | some held' =>
            match distLoop mintKey tokenProg now available rest distributed held' with
            | .error e => .error e
            | .ok (d, h, us) =>
              .ok (d, h, { recipient := r.address, amount := newAmt,
                           timestamp := now } :: us)
      else
        match validate_and_send_to_recipient a r mintKey tokenProg with
        | .error e => .error e
        | .ok _ =>
          match checkedAdd64 distributed amount with
          | none => .error .MathOverflow
          | some distributed' =>
            match distLoop mintKey tokenProg now available rest distributed' held with
            | .error e => .error e
            | .ok (d, h, us) => .ok (d, h, u :: us)

/-- The protocol-fee step (`execute_split.rs` lines 180–257): when the fee is
positive, validate the supplied trailing account's address and writability,
accrue to `protocol_unclaimed` when it is missing or frozen, and otherwise
validate ownership/owner/mint and transfer.  Returns
(`protocol_fee_sent`, updated `protocol_unclaimed`). -/
def protocolFeeStep (protoAta : Ata) (feeWallet mintKey tokenProg : Nat)
    (fee protoUnclaimed : Nat) : Except ErrorCode (Nat × Nat) :=
  if fee = 0 then .ok (0, protoUnclaimed)
  else if protoAta.key ≠ ataAddr feeWallet mintKey tokenProg then
    .error .InvalidProtocolFeeRecipient
  else if protoAta.isWritable = false then
    .error .InvalidProtocolFeeRecipient
  else if protoAta.dataEmpty = true ∨ is_account_frozen protoAta = true then
    match checkedAdd64 protoUnclaimed fee with
    | none => .error .MathOverflow
    | some p => .ok (0, p)
  else if ¬ validOwnerProg protoAta then .error .InvalidProtocolFeeRecipient
  else if protoAta.deserOk = false then .error .InvalidProtocolFeeRecipient
  else if protoAta.tokOwner ≠ feeWallet then .error .InvalidProtocolFeeRecipient
  else if protoAta.tokMint ≠ mintKey then .error .InvalidProtocolFeeRecipient
  else .ok (fee, protoUnclaimed)

/-- The recipient self-healing loop (`execute_split.rs` lines 259–290): for
every entry with a positive (post-distribution) unclaimed amount whose
account reference is present and unfrozen, validate and transfer the full
amount and zero the entry; a missing or frozen account is skipped.  Returns
the accumulated `unclaimed_cleared` and the updated entries. -/
def healLoop (mintKey tokenProg : Nat) :
    List (Recipient × UnclaimedAmount × Ata) → Nat →
    Except ErrorCode (Nat × List UnclaimedAmount)
  | [], cleared => .ok (cleared, [])
  | (r, u, a) :: rest, cleared =>
    if u.amount > 0 then
      if a.dataEmpty = true ∨ is_account_frozen a = true then
        match healLoop mintKey tokenProg rest cleared with
        | .error e => .error e
        | .ok (c, us) => .ok (c, u :: us)
      else
        match validate_and_send_to_recipient a r mintKey tokenProg with
        | .error e => .error e
        | .ok _ =>
          match checkedAdd64 cleared u.amount with
          | none => .error .MathOverflow
          | some cleared' =>
            match healLoop mintKey tokenProg rest cleared' with
            | .error e => .error e
            | .ok (c, us) => .ok (c, { u with amount := 0 } :: us)
    else
      match healLoop mintKey tokenProg rest cleared with
      | .error e => .error e
      | .ok (c, us) => .ok (c, u :: us)

/-- The protocol self-healing step (`execute_split.rs` lines 292–334): when
the protocol liability is positive and the trailing account is present,
unfrozen, token-program-owned, deserializable and has the expected owner and
mint, transfer and zero the full liability; otherwise (including every
validation failure) silently leave it untouched.  Returns the updated
liability and `protocol_unclaimed_cleared`. -/
def protocolHealStep (protoAta : Ata) (feeWallet mintKey : Nat)
    (protoUnclaimed : Nat) : Nat × Nat :=
  if protoUnclaimed > 0 then
    if protoAta.dataEmpty = true ∨ is_account_frozen protoAta = true then
      (protoUnclaimed, 0)
    else if validOwnerProg protoAta ∧ protoAta.deserOk = true ∧
            protoAta.tokOwner = feeWallet ∧ protoAta.tokMint = mintKey then
      (0, protoUnclaimed)
    else (protoUnclaimed, 0)
  else (protoUnclaimed, 0)

/-- A placeholder account reference; `List.getD` needs a default and the
handler only reads the last element after checking the list is nonempty. -/
def defaultAta : Ata :=
  { key := 0, isWritable := false, dataEmpty := true, ownerProg := 0,
    deserOk := false, frozenFlag := false, tokOwner := 0, tokMint := 0 }

/-- `remaining_accounts.last()`. -/
def lastAta (l : List Ata) : Ata := l.getD (l.length - 1) defaultAta

/-- Placeholder recipient for total indexed access. -/
def defaultRecipient : Recipient := { address := 0, percentage_bps := 0 }

/-- Placeholder unclaimed entry for total indexed access. -/
def defaultUnclaimed : UnclaimedAmount :=
  { recipient := 0, amount := 0, timestamp := 0 }

/-- `execute_split::handler`: snapshot the record, require one account
reference per active recipient plus the trailing protocol account, compute
`available = vault − Σ unclaimed − protocol_unclaimed` with checked
subtraction, run the distribution loop when `available > 0`, compute and
settle the protocol fee, run both self-healing passes, and return the
write-back state together with the event counters. -/
def execute_split (cfg : SplitConfig) (env : ExecEnv) : Except ErrorCode ExecOut :=
  let count := cfg.recipient_count
  if ¬ env.remaining.length > count then .error .InsufficientRemainingAccounts
  else
    let recips := cfg.recipients.take count
    let uncl := cfg.unclaimed_amounts.take count
    let atas := env.remaining.take count
    match sumUnclaimedChecked uncl 0 with
    | none => .error .MathOverflow
    | some totalUnclaimed =>
      match checkedSub env.vaultBalance totalUnclaimed with
      | none => .error .MathUnderflow
      | some afterRecipients =>
        match checkedSub afterRecipients cfg.protocol_unclaimed with
        | none => .error .MathUnderflow
        | some available =>
          match (if available > 0 then
                   distLoop env.mintKey env.tokenProg env.now available
                     (zip3 recips uncl atas) 0 0
                 else .ok (0, 0, uncl)) with
          | .error e => .error e
          | .ok (distributed, held, uncl1) =>
            match checkedSub available distributed with
            | none => .error .MathUnderflow
            | some afterDist =>
              match checkedSub afterDist held with
              | none => .error .MathUnderflow
              | some fee =>
                let protoAta := lastAta env.remaining
                match protocolFeeStep protoAta env.feeWallet env.mintKey
                    env.tokenProg fee cfg.protocol_unclaimed with
                | .error e => .error e
                | .ok (feeSent, proto1) =>
                  match healLoop env.mintKey env.tokenProg
                      (zip3 recips uncl1 atas) 0 with
                  | .error e => .error e
                  | .ok (cleared, uncl2) =>
                    let (proto2, protoCleared) :=
                      protocolHealStep protoAta env.feeWallet env.mintKey proto1
                    .ok { available := available
                          distributed := distributed
                          heldAsUnclaimed := held
                          protocolFee := fee
                          protocolFeeSent := feeSent
                          unclaimedCleared := cleared
                          protocolUnclaimedCleared := protoCleared
                          newUnclaimed := uncl2
                          newProtocolUnclaimed := proto2 }

/-- The commit phase (`execute_split.rs` lines 336–344): the first
`recipient_count` unclaimed entries are overwritten from the local copy, the
protocol liability is replaced, and `last_activity` is stamped. -/
def applyExec (cfg : SplitConfig) (out : ExecOut) (now : Int) : SplitConfig :=
  { cfg with
    unclaimed_amounts :=
      out.newUnclaimed ++ cfg.unclaimed_amounts.drop out.newUnclaimed.length
    protocol_unclaimed := out.newProtocolUnclaimed
    last_activity := now }

/-- The vault balance after a successful call: every transfer issued during
the call moved funds out of the vault. -/
def postVault (env : ExecEnv) (out : ExecOut) : Nat :=
  env.vaultBalance -
    (out.distributed + out.protocolFeeSent + out.unclaimedCleared +
      out.protocolUnclaimedCleared)

/-- Mathematical sum of the amounts of a liability list. -/
def sumAmounts (us : List UnclaimedAmount) : Nat :=
  (us.map (fun u => u.amount)).sum

/-- Mathematical sum of the basis points of a recipient-input list. -/
def sumBpsIn (l : List RecipientInput) : Nat :=
  (l.map (fun r => r.percentage_bps)).sum

/-- Pointwise effect of the distribution loop on one (recipient, unclaimed
entry, account reference) triple: the entry is unchanged, or — when the share
is positive and the account is missing or frozen — the share accrues to it
and its timestamp is stamped. -/
def distRel (now : Int) (avail : Nat)
    (it : Recipient × UnclaimedAmount × Ata) (u' : UnclaimedAmount) : Prop :=
  u' = it.2.1 ∨
    (∃ amt, shareAmount avail it.1.percentage_bps = .ok amt ∧ 0 < amt ∧
      (it.2.2.dataEmpty = true ∨ is_account_frozen it.2.2 = true) ∧
      u' = { recipient := it.1.address, amount := it.2.1.amount + amt,
             timestamp := now })

/-- Pointwise effect of the recipient self-healing loop on one triple: a zero
entry or a missing/frozen account leaves the entry unchanged; otherwise the
account validated, the full amount was transferred and the entry zeroed. -/
def healRel (mk tp : Nat) (it : Recipient × UnclaimedAmount × Ata)
    (u' : UnclaimedAmount) : Prop :=
  (u' = it.2.1 ∧ (it.2.1.amount = 0 ∨ it.2.2.dataEmpty = true ∨
      is_account_frozen it.2.2 = true)) ∨
  (u' = { it.2.1 with amount := 0 } ∧ 0 < it.2.1.amount ∧
    it.2.2.dataEmpty = false ∧ is_account_frozen it.2.2 = false ∧
    validate_and_send_to_recipient it.2.2 it.1 mk tp = .ok ())

/-! Concrete fixtures used by witnesses and counterexamples. -/

/-- Fixture mint address. -/
def wMint : Nat := 100

/-- Fixture token program address. -/
def wProg : Nat := 1

/-- Fixture protocol fee wallet. -/
def wFeeWallet : Nat := 77

/-- A well-formed, present, unfrozen receiving account for `owner`. -/
def wGoodAta (owner : Nat) : Ata :=
  { key := ataAddr owner wMint wProg, isWritable := true, dataEmpty := false,
    ownerProg := tokenProgID, deserOk := true, frozenFlag := false,
    tokOwner := owner, tokMint := wMint }

/-- A single-recipient fixture configuration: recipient 5 at 9900 bps, no
liabilities. -/
def wCfg : SplitConfig :=
  { version := 1, authority := 3, mint := wMint, vault := 4, unique_id := 5,
    bump := 0, recipient_count := 1,
    recipients := { address := 5, percentage_bps := 9900 } ::
      List.replicate 19 { address := 0, percentage_bps := 0 },
    unclaimed_amounts :=
      List.replicate 20 { recipient := 0, amount := 0, timestamp := 0 },
    protocol_unclaimed := 0, last_activity := 0, rent_payer := 9 }

/-- Environment with pooled balance 999 and both receiving accounts valid. -/
def wEnv999 : ExecEnv :=
  { vaultBalance := 999, feeWallet := wFeeWallet, mintKey := wMint,
    tokenProg := wProg, remaining := [wGoodAta 5, wGoodAta wFeeWallet],
    now := 42 }

/-- The output of the fixture execution of balance 999 through one 9900-bps
recipient. -/
def wOut999 : ExecOut :=
  { available := 999, distributed := 989, heldAsUnclaimed := 0,
    protocolFee := 10, protocolFeeSent := 10, unclaimedCleared := 0,
    protocolUnclaimedCleared := 0,
    newUnclaimed := [{ recipient := 0, amount := 0, timestamp := 0 }],
    newProtocolUnclaimed := 0 }

/-- Fixture configuration carrying a prior unclaimed liability of 5 for
recipient 5. -/
def wCfgC5 : SplitConfig :=
  { wCfg with unclaimed_amounts :=
      { recipient := 5, amount := 5, timestamp := 0 } ::
        List.replicate 19 { recipient := 0, amount := 0, timestamp := 0 } }

/-- Fixture environment whose pooled balance exactly covers the liability
(so `available = 0`) with a valid receiving account: healing clears it. -/
def wEnvC5b : ExecEnv := { wEnv999 with vaultBalance := 5 }

/-- The output of executing `wCfgC5` in `wEnvC5b`: healing transfers the full
liability and zeroes the entry. -/
def wOutC5b : ExecOut :=
  { available := 0, distributed := 0, heldAsUnclaimed := 0, protocolFee := 0,
    protocolFeeSent := 0, unclaimedCleared := 5, protocolUnclaimedCleared := 0,
    newUnclaimed := [{ recipient := 5, amount := 0, timestamp := 0 }],
    newProtocolUnclaimed := 0 }

/-- A receiving account that exists, is unfrozen, is at the canonical address
and owned by a token program, but whose recorded owner (7) differs from the
recipient (5). -/
def wBadAta : Ata :=
  { key := ataAddr 5 wMint wProg, isWritable := true, dataEmpty := false,
    ownerProg := tokenProgID, deserOk := true, frozenFlag := false,
    tokOwner := 7, tokMint := wMint }

/-- Fixture environment where the liability's receiving account exists and is
unfrozen but fails owner validation during healing. -/
def wEnvC5 : ExecEnv :=
  { wEnv999 with vaultBalance := 5, remaining := [wBadAta, wGoodAta wFeeWallet] }


/-! Basic lemmas about the checked arithmetic. -/


theorem sumAmounts_nil : sumAmounts [] = 0 := rfl

theorem sumAmounts_cons (u : UnclaimedAmount) (us : List UnclaimedAmount) :
    sumAmounts (u :: us) = u.amount + sumAmounts us := by
  simp [sumAmounts]

theorem checkedSub_eq_some {a b c : Nat} :
    checkedSub a b = some c ↔ b ≤ a ∧ c = a - b := by
  unfold checkedSub
  by_cases h : b ≤ a
  · rw [if_pos h]
    simp [h, eq_comm]
  · rw [if_neg h]
    simp [h]

theorem checkedAdd64_eq_some {a b c : Nat} :
    checkedAdd64 a b = some c ↔ a + b < U64 ∧ c = a + b := by
  unfold checkedAdd64
  by_cases h : a + b < U64
  · rw [if_pos h]
    simp [h, eq_comm]
  · rw [if_neg h]
    simp [h]

theorem sumUnclaimedChecked_some {us : List UnclaimedAmount} {acc s : Nat}
    (h : sumUnclaimedChecked us acc = some s) : s = acc + sumAmounts us := by
  induction us generalizing acc with
  | nil => simp [sumUnclaimedChecked] at h; simp [sumAmounts_nil, h]
  | cons u rest ih =>
    rw [sumUnclaimedChecked] at h
    rw [sumAmounts_cons]
    by_cases hu : u.amount > 0
    · rw [if_pos hu] at h
      rcases hAdd : checkedAdd64 acc u.amount with _ | acc'
      · rw [hAdd] at h; cases h
      · rw [hAdd] at h
        obtain ⟨_, rfl⟩ := checkedAdd64_eq_some.mp hAdd
        have := ih h
        omega
    · rw [if_neg hu] at h
      have := ih h
      omega

theorem sumUnclaimedChecked_of_bound {us : List UnclaimedAmount} {acc : Nat}
    (h : acc + sumAmounts us < U64) :
    sumUnclaimedChecked us acc = some (acc + sumAmounts us) := by
  induction us generalizing acc with
  | nil => simp [sumUnclaimedChecked, sumAmounts_nil]
  | cons u rest ih =>
    rw [sumAmounts_cons] at h ⊢
    rw [sumUnclaimedChecked]
    by_cases hu : u.amount > 0
    · rw [if_pos hu]
      have hAdd : checkedAdd64 acc u.amount = some (acc + u.amount) :=
        checkedAdd64_eq_some.mpr ⟨by omega, rfl⟩
      rw [hAdd]
      show sumUnclaimedChecked rest (acc + u.amount) = _
      have := @ih (acc + u.amount) (by omega)
      rw [this]
      congr 1
      omega
    · rw [if_neg hu]
      have hu0 : u.amount = 0 := by omega
      have := @ih acc (by omega)
      rw [this, hu0]
      congr 1
      omega


/-- C1: in every successful `execute_split` call the amounts are
dust-conservative: the per-recipient amounts actually transferred, plus the
protocol fee (sent or accrued), plus the amounts newly accrued as recipient
unclaimed liabilities, equal exactly the computed available balance; and that
available balance is exactly the pooled vault balance minus all pre-existing
per-recipient and protocol unclaimed liabilities. -/
theorem c1_dust_conservation (cfg : SplitConfig) (env : ExecEnv) (out : ExecOut)
    (h : execute_split cfg env = .ok out) :
    out.distributed + out.protocolFee + out.heldAsUnclaimed = out.available ∧
    out.available +
        sumAmounts (cfg.unclaimed_amounts.take cfg.recipient_count) +
        cfg.protocol_unclaimed = env.vaultBalance := by
  simp only [execute_split] at h
  split at h
  · exact absurd h (by simp)
  split at h
  · exact absurd h (by simp)
  next totalU hsum =>
  split at h
  · exact absurd h (by simp)
  next t1 hsub1 =>
  split at h
  · exact absurd h (by simp)
  next available hsub2 =>
  split at h
  · exact absurd h (by simp)
  next distributed held uncl1 hdist =>
  split at h
  · exact absurd h (by simp)
  next afterDist hsub3 =>
  split at h
  · exact absurd h (by simp)
  next fee hsub4 =>
  split at h
  · exact absurd h (by simp)
  next feeSent proto1 hfee =>
  split at h
  · exact absurd h (by simp)
  next cleared uncl2 hheal =>
  rcases hph : protocolHealStep (lastAta env.remaining) env.feeWallet env.mintKey
      proto1 with ⟨proto2, protoCleared⟩
  rw [hph] at h
  simp only [Except.ok.injEq] at h
  subst h
  have e1 := sumUnclaimedChecked_some hsum
  have e2 := checkedSub_eq_some.mp hsub1
  have e3 := checkedSub_eq_some.mp hsub2
  have e4 := checkedSub_eq_some.mp hsub3
  have e5 := checkedSub_eq_some.mp hsub4
  simp only []
  constructor
  · omega
  · omega

/-- Witness for C1 at a concrete input. -/
theorem c1_dust_conservation_witness :
    wOut999.distributed + wOut999.protocolFee + wOut999.heldAsUnclaimed =
        wOut999.available ∧
    wOut999.available +
        sumAmounts (wCfg.unclaimed_amounts.take wCfg.recipient_count) +
        wCfg.protocol_unclaimed = wEnv999.vaultBalance :=
  c1_dust_conservation wCfg wEnv999 wOut999 (by rfl)

/-- C2: the per-recipient share computation returns `floor(total * bps / 10000)`
computed in a wide (u128) intermediate, with an explicit range check failing
with an overflow error when the result does not fit in u64; in particular
`share(999, 9900) = 989`, and executing a split of an available balance of 999
with a single 9900-bps recipient distributes 989 and leaves a protocol fee of
`999 - 989 = 10`. -/
theorem c2_share_floor :
    (∀ total bps : Nat, total < U64 → bps < 65536 →
      calculate_recipient_amount total bps =
        if total * bps / 10000 < U64 then some (total * bps / 10000) else none) ∧
    calculate_recipient_amount 999 9900 = some 989 ∧
    calculate_recipient_amount 9223372036854775808 30000 = none ∧
    execute_split wCfg wEnv999 =
      .ok { available := 999, distributed := 989, heldAsUnclaimed := 0,
            protocolFee := 10, protocolFeeSent := 10, unclaimedCleared := 0,
            protocolUnclaimedCleared := 0,
            newUnclaimed := [{ recipient := 0, amount := 0, timestamp := 0 }],
            newProtocolUnclaimed := 0 } := by
  refine ⟨?_, by decide, by decide, by rfl⟩
  intro total bps h1 h2
  have h3 : total * bps ≤ (U64 - 1) * 65535 := Nat.mul_le_mul (by omega) (by omega)
  have hp : total * bps < U128 := lt_of_le_of_lt h3 (by decide)
  unfold calculate_recipient_amount checkedMul128 checkedDiv
  rw [if_pos hp]
  simp only [Option.some_bind]
  rw [if_neg (by norm_num : ¬ (10000 : Nat) = 0)]
  simp only [Option.some_bind]

/-- Witness for C2 at a concrete input. -/
theorem c2_share_floor_witness :
    calculate_recipient_amount 1000000 9900 = some 990000 := by
  have h := c2_share_floor.1 1000000 9900 (by decide) (by decide)
  rw [h]
  decide


theorem checkedAdd32_eq_some {a b c : Nat} :
    checkedAdd32 a b = some c ↔ a + b < U32 ∧ c = a + b := by
  unfold checkedAdd32
  by_cases h : a + b < U32
  · rw [if_pos h]
    simp [h, eq_comm]
  · rw [if_neg h]
    simp [h]

theorem sumBpsIn_cons (r : RecipientInput) (rest : List RecipientInput) :
    sumBpsIn (r :: rest) = r.percentage_bps + sumBpsIn rest := by
  simp [sumBpsIn]

theorem sumBpsIn_le {l : List RecipientInput}
    (h : ∀ r ∈ l, r.percentage_bps < 65536) : sumBpsIn l ≤ l.length * 65535 := by
  induction l with
  | nil => simp [sumBpsIn]
  | cons r rest ih =>
    have h1 := h r (by simp)
    have h2 := ih (fun x hx => h x (by simp [hx]))
    rw [sumBpsIn_cons]
    simp only [List.length_cons]
    omega

theorem bpsFold_eq_some {l : List RecipientInput} {acc : Nat}
    (h : acc + sumBpsIn l < U32) :
    l.foldlM (fun acc r => checkedAdd32 acc r.percentage_bps) acc =
      some (acc + sumBpsIn l) := by
  induction l generalizing acc with
  | nil => simp [sumBpsIn]
  | cons r rest ih =>
    rw [List.foldlM_cons]
    rw [sumBpsIn_cons] at h ⊢
    have hAdd : checkedAdd32 acc r.percentage_bps = some (acc + r.percentage_bps) :=
      checkedAdd32_eq_some.mpr ⟨by omega, rfl⟩
    rw [hAdd]
    show rest.foldlM _ (acc + r.percentage_bps) = _
    have := @ih (acc + r.percentage_bps) (by omega)
    rw [this]
    congr 1
    omega

theorem checkRecipientEntries_ok {l : List RecipientInput}
    (h1 : ∀ r ∈ l, r.address ≠ 0) (h2 : ∀ r ∈ l, r.percentage_bps ≠ 0)
    (h3 : l.Pairwise (fun a b => a.address ≠ b.address)) :
    checkRecipientEntries l = .ok () := by
  induction l with
  | nil => rfl
  | cons r rest ih =>
    rw [checkRecipientEntries]
    rw [if_neg (h1 r (by simp)), if_neg (h2 r (by simp))]
    rw [List.pairwise_cons] at h3
    rw [if_neg]
    · exact ih (fun x hx => h1 x (by simp [hx]))
        (fun x hx => h2 x (by simp [hx])) h3.2
    · intro hany
      rcases List.any_eq_true.mp hany with ⟨o, ho, heq⟩
      have heq2 : o.address = r.address := by simpa using heq
      exact h3.1 o ho heq2.symm

theorem checkRecipientEntries_zero_addr {l : List RecipientInput}
    (hx : ∃ r ∈ l, r.address = 0) (h2 : ∀ r ∈ l, r.percentage_bps ≠ 0)
    (h3 : l.Pairwise (fun a b => a.address ≠ b.address)) :
    checkRecipientEntries l = .error .ZeroAddress := by
  induction l with
  | nil => simp at hx
  | cons r rest ih =>
    rw [checkRecipientEntries]
    rw [List.pairwise_cons] at h3
    by_cases hr : r.address = 0
    · rw [if_pos hr]
    · rw [if_neg hr, if_neg (h2 r (by simp))]
      rw [if_neg]
      · rcases hx with ⟨x, hxl, hx0⟩
        rcases List.mem_cons.mp hxl with rfl | hxrest
        · exact absurd hx0 hr
        · exact ih ⟨x, hxrest, hx0⟩ (fun y hy => h2 y (by simp [hy])) h3.2
      · intro hany
        rcases List.any_eq_true.mp hany with ⟨o, ho, heq⟩
        have heq2 : o.address = r.address := by simpa using heq
        exact h3.1 o ho heq2.symm

theorem checkRecipientEntries_zero_pct {l : List RecipientInput}
    (h1 : ∀ r ∈ l, r.address ≠ 0) (hx : ∃ r ∈ l, r.percentage_bps = 0)
    (h3 : l.Pairwise (fun a b => a.address ≠ b.address)) :
    checkRecipientEntries l = .error .ZeroPercentage := by
  induction l with
  | nil => simp at hx
  | cons r rest ih =>
    rw [checkRecipientEntries]
    rw [List.pairwise_cons] at h3
    rw [if_neg (h1 r (by simp))]
    by_cases hr : r.percentage_bps = 0
    · rw [if_pos hr]
    · rw [if_neg hr, if_neg]
      · rcases hx with ⟨x, hxl, hx0⟩
        rcases List.mem_cons.mp hxl with rfl | hxrest
        · exact absurd hx0 hr
        · exact ih (fun y hy => h1 y (by simp [hy])) ⟨x, hxrest, hx0⟩ h3.2
      · intro hany
        rcases List.any_eq_true.mp hany with ⟨o, ho, heq⟩
        have heq2 : o.address = r.address := by simpa using heq
        exact h3.1 o ho heq2.symm

theorem checkRecipientEntries_dup {l : List RecipientInput}
    (h1 : ∀ r ∈ l, r.address ≠ 0) (h2 : ∀ r ∈ l, r.percentage_bps ≠ 0)
    (hx : ¬ l.Pairwise (fun a b => a.address ≠ b.address)) :
    checkRecipientEntries l = .error .DuplicateRecipient := by
  induction l with
  | nil => exact absurd List.Pairwise.nil hx
  | cons r rest ih =>
    rw [checkRecipientEntries]
    rw [if_neg (h1 r (by simp)), if_neg (h2 r (by simp))]
    by_cases hany : (rest.any fun o => o.address = r.address) = true
    · rw [if_pos hany]
    · rw [if_neg hany]
      refine ih (fun y hy => h1 y (by simp [hy])) (fun y hy => h2 y (by simp [hy])) ?_
      intro hp
      apply hx
      rw [List.pairwise_cons]
      refine ⟨?_, hp⟩
      intro o ho heq
      exact hany (List.any_eq_true.mpr ⟨o, ho, by simp [heq]⟩)

theorem checkRecipientAtas_ok {mint : Nat} {items : List (RecipientInput × Ata)}
    (h : ∀ p ∈ items, validate_recipient_ata p.2 p.1.address mint = .ok ()) :
    checkRecipientAtas mint items = .ok () := by
  induction items with
  | nil => rfl
  | cons p rest ih =>
    rw [checkRecipientAtas]
    rw [h p (by simp)]
    exact ih (fun q hq => h q (by simp [hq]))

/-- C3: for every recipient list of size 1–20 whose entries have unique
non-zero addresses and non-zero shares summing to exactly 9900 (and whose
receiving accounts validate), `create_split_config` succeeds; and a list
violating exactly one rule fails with the specific error for that rule:
`InvalidRecipientCount` for size 0 or > 20, `InvalidSplitTotal` for any other
sum, `ZeroAddress`, `ZeroPercentage`, `DuplicateRecipient`. -/
theorem c3_create_validation (l : List RecipientInput) (atas : List Ata)
    (authority payer uniqueId bump vaultKey mint : Nat)
    (hbps : ∀ r ∈ l, r.percentage_bps < 65536) :
    (1 ≤ l.length → l.length ≤ 20 → sumBpsIn l = 9900 →
      (∀ r ∈ l, r.address ≠ 0) → (∀ r ∈ l, r.percentage_bps ≠ 0) →
      l.Pairwise (fun a b => a.address ≠ b.address) →
      l.length ≤ atas.length →
      (∀ p ∈ l.zip atas, validate_recipient_ata p.2 p.1.address mint = .ok ()) →
      (create_split_config authority payer uniqueId bump vaultKey mint
        l atas).isOk = true) ∧
    (¬(1 ≤ l.length ∧ l.length ≤ 20) →
      create_split_config authority payer uniqueId bump vaultKey mint l atas =
        .error .InvalidRecipientCount) ∧
    (1 ≤ l.length → l.length ≤ 20 → sumBpsIn l ≠ 9900 →
      create_split_config authority payer uniqueId bump vaultKey mint l atas =
        .error .InvalidSplitTotal) ∧
    (1 ≤ l.length → l.length ≤ 20 → sumBpsIn l = 9900 →
      (∃ r ∈ l, r.address = 0) → (∀ r ∈ l, r.percentage_bps ≠ 0) →
      l.Pairwise (fun a b => a.address ≠ b.address) →
      create_split_config authority payer uniqueId bump vaultKey mint l atas =
        .error .ZeroAddress) ∧
    (1 ≤ l.length → l.length ≤ 20 → sumBpsIn l = 9900 →
      (∀ r ∈ l, r.address ≠ 0) → (∃ r ∈ l, r.percentage_bps = 0) →
      l.Pairwise (fun a b => a.address ≠ b.address) →
      create_split_config authority payer uniqueId bump vaultKey mint l atas =
        .error .ZeroPercentage) ∧
    (1 ≤ l.length → l.length ≤ 20 → sumBpsIn l = 9900 →
      (∀ r ∈ l, r.address ≠ 0) → (∀ r ∈ l, r.percentage_bps ≠ 0) →
      ¬ l.Pairwise (fun a b => a.address ≠ b.address) →
      create_split_config authority payer uniqueId bump vaultKey mint l atas =
        .error .DuplicateRecipient) := by
  have hsumlt : l.length ≤ 20 → 0 + sumBpsIn l < U32 := by
    intro hlen
    have := sumBpsIn_le hbps
    have : sumBpsIn l ≤ 20 * 65535 := le_trans this (by
      exact Nat.mul_le_mul_right _ hlen)
    unfold U32
    omega
  refine ⟨?_, ?_, ?_, ?_, ?_, ?_⟩
  · intro hmin hmax hsum h1 h2 h3 hlen hata
    simp only [create_split_config]
    rw [if_neg (by unfold MIN_RECIPIENTS MAX_RECIPIENTS; omega)]
    rw [bpsFold_eq_some (hsumlt hmax)]
    simp only [Nat.zero_add]
    rw [if_neg (by unfold REQUIRED_SPLIT_TOTAL; omega)]
    rw [checkRecipientEntries_ok h1 h2 h3]
    simp only []
    rw [if_neg (by omega)]
    rw [checkRecipientAtas_ok hata]
    rfl
  · intro hcount
    simp only [create_split_config]
    rw [if_pos (by unfold MIN_RECIPIENTS MAX_RECIPIENTS; omega)]
  · intro hmin hmax hsum
    simp only [create_split_config]
    rw [if_neg (by unfold MIN_RECIPIENTS MAX_RECIPIENTS; omega)]
    rw [bpsFold_eq_some (hsumlt hmax)]
    simp only [Nat.zero_add]
    rw [if_pos (by unfold REQUIRED_SPLIT_TOTAL; omega)]
  · intro hmin hmax hsum hx h2 h3
    simp only [create_split_config]
    rw [if_neg (by unfold MIN_RECIPIENTS MAX_RECIPIENTS; omega)]
    rw [bpsFold_eq_some (hsumlt hmax)]
    simp only [Nat.zero_add]
    rw [if_neg (by unfold REQUIRED_SPLIT_TOTAL; omega)]
    rw [checkRecipientEntries_zero_addr hx h2 h3]
  · intro hmin hmax hsum h1 hx h3
    simp only [create_split_config]
    rw [if_neg (by unfold MIN_RECIPIENTS MAX_RECIPIENTS; omega)]
    rw [bpsFold_eq_some (hsumlt hmax)]
    simp only [Nat.zero_add]
    rw [if_neg (by unfold REQUIRED_SPLIT_TOTAL; omega)]
    rw [checkRecipientEntries_zero_pct h1 hx h3]
  · intro hmin hmax hsum h1 h2 hx
    simp only [create_split_config]
    rw [if_neg (by unfold MIN_RECIPIENTS MAX_RECIPIENTS; omega)]
    rw [bpsFold_eq_some (hsumlt hmax)]
    simp only [Nat.zero_add]
    rw [if_neg (by unfold REQUIRED_SPLIT_TOTAL; omega)]
    rw [checkRecipientEntries_dup h1 h2 hx]

/-- Witness for C3 at concrete inputs: a valid single-recipient list is
accepted; an empty list, a wrong sum, a zero address, a zero share and a
duplicate each draw their specific error. -/
theorem c3_create_validation_witness :
    (create_split_config 3 9 5 0 4 wMint
        [{ address := 5, percentage_bps := 9900 }] [wGoodAta 5]).isOk = true ∧
    create_split_config 3 9 5 0 4 wMint [] [] =
      .error .InvalidRecipientCount ∧
    create_split_config 3 9 5 0 4 wMint
        [{ address := 5, percentage_bps := 9000 }] [wGoodAta 5] =
      .error .InvalidSplitTotal ∧
    create_split_config 3 9 5 0 4 wMint
        [{ address := 0, percentage_bps := 9900 }] [wGoodAta 5] =
      .error .ZeroAddress ∧
    create_split_config 3 9 5 0 4 wMint
        [{ address := 5, percentage_bps := 9900 },
         { address := 6, percentage_bps := 0 }] [wGoodAta 5, wGoodAta 6] =
      .error .ZeroPercentage ∧
    create_split_config 3 9 5 0 4 wMint
        [{ address := 5, percentage_bps := 4950 },
         { address := 5, percentage_bps := 4950 }] [wGoodAta 5, wGoodAta 5] =
      .error .DuplicateRecipient := by
  refine ⟨?_, ?_, ?_, ?_, ?_, ?_⟩
  · exact (c3_create_validation [{ address := 5, percentage_bps := 9900 }]
      [wGoodAta 5] 3 9 5 0 4 wMint (by decide)).1 (by decide) (by decide)
      (by decide) (by decide) (by decide) (by simp) (by decide)
      (by intro p hp; simp [List.zip] at hp; subst hp; rfl)
  · exact (c3_create_validation [] [] 3 9 5 0 4 wMint (by decide)).2.1 (by decide)
  · exact (c3_create_validation [{ address := 5, percentage_bps := 9000 }]
      [wGoodAta 5] 3 9 5 0 4 wMint (by decide)).2.2.1 (by decide) (by decide)
      (by decide)
  · exact (c3_create_validation [{ address := 0, percentage_bps := 9900 }]
      [wGoodAta 5] 3 9 5 0 4 wMint (by decide)).2.2.2.1 (by decide) (by decide)
      (by decide) (by simp) (by decide) (by simp)
  · exact (c3_create_validation
      [{ address := 5, percentage_bps := 9900 },
       { address := 6, percentage_bps := 0 }]
      [wGoodAta 5, wGoodAta 6] 3 9 5 0 4 wMint (by decide)).2.2.2.2.1 (by decide)
      (by decide) (by decide) (by decide) (by simp) (by simp [List.pairwise_cons])
  · exact (c3_create_validation
      [{ address := 5, percentage_bps := 4950 },
       { address := 5, percentage_bps := 4950 }]
      [wGoodAta 5, wGoodAta 5] 3 9 5 0 4 wMint (by decide)).2.2.2.2.2 (by decide)
      (by decide) (by decide) (by decide) (by decide)
      (by simp [List.pairwise_cons])

/-- C7: `execute_split` fails with `InsufficientRemainingAccounts` — before any
transfer or state change — when at most as many receiving-account references
are supplied as there are active recipients; a successful call implies one
reference per active recipient plus one trailing reference was supplied. -/
theorem c7_insufficient_accounts (cfg : SplitConfig) (env : ExecEnv) :
    (env.remaining.length ≤ cfg.recipient_count →
      execute_split cfg env = .error .InsufficientRemainingAccounts) ∧
    (∀ out, execute_split cfg env = .ok out →
      cfg.recipient_count + 1 ≤ env.remaining.length) := by
  constructor
  · intro hle
    unfold execute_split
    rw [if_pos (show ¬ env.remaining.length > cfg.recipient_count by omega)]
  · intro out hok
    by_contra hlt
    push_neg at hlt
    unfold execute_split at hok
    rw [if_pos (show ¬ env.remaining.length > cfg.recipient_count by omega)] at hok
    simp at hok

/-- Witness for C7 at a concrete input: one reference for one recipient (the
trailing protocol slot missing) is rejected. -/
theorem c7_insufficient_accounts_witness :
    execute_split wCfg { wEnv999 with remaining := [wGoodAta 5] } =
      .error .InsufficientRemainingAccounts :=
  (c7_insufficient_accounts wCfg { wEnv999 with remaining := [wGoodAta 5] }).1
    (by decide)

/-- C8: with the controller signing and the recorded `rent_payer` supplied as
rent destination, `close_split_config` fails with `VaultNotEmpty` while the
vault balance is nonzero, fails with `UnclaimedNotEmpty` while any active
per-recipient unclaimed amount or the protocol unclaimed amount is nonzero,
and once all are zero succeeds, returning the storage deposit to the recorded
`rent_payer` (which need not be the closing signer). -/
theorem c8_close_requirements (cfg : SplitConfig)
    (vaultBalance signer rentDest : Nat)
    (hs : signer = cfg.authority) (hr : rentDest = cfg.rent_payer) :
    (vaultBalance ≠ 0 →
      close_split_config cfg vaultBalance signer rentDest =
        .error .VaultNotEmpty) ∧
    (vaultBalance = 0 →
      ((∃ u ∈ cfg.unclaimed_amounts.take cfg.recipient_count, u.amount ≠ 0) ∨
        cfg.protocol_unclaimed ≠ 0) →
      close_split_config cfg vaultBalance signer rentDest =
        .error .UnclaimedNotEmpty) ∧
    (vaultBalance = 0 →
      (∀ u ∈ cfg.unclaimed_amounts.take cfg.recipient_count, u.amount = 0) →
      cfg.protocol_unclaimed = 0 →
      close_split_config cfg vaultBalance signer rentDest =
        .ok cfg.rent_payer) := by
  subst hs
  subst hr
  refine ⟨?_, ?_, ?_⟩
  · intro hv
    unfold close_split_config
    rw [if_neg (by simp), if_pos hv]
  · intro hv hbad
    unfold close_split_config
    rw [if_neg (by simp), if_neg (by simp [hv]), if_neg (by simp)]
    rcases hbad with ⟨u, hu, hne⟩ | hproto
    · rw [if_pos (List.any_eq_true.mpr ⟨u, hu, by simpa using hne⟩)]
    · by_cases hany :
        (cfg.unclaimed_amounts.take cfg.recipient_count).any
          (fun u => u.amount ≠ 0) = true
      · rw [if_pos hany]
      · rw [if_neg hany, if_pos hproto]
  · intro hv hall hproto
    unfold close_split_config
    rw [if_neg (by simp), if_neg (by simp [hv]), if_neg (by simp)]
    rw [if_neg, if_neg (by simp [hproto])]
    intro hany
    rcases List.any_eq_true.mp hany with ⟨u, hu, hne⟩
    exact absurd (hall u hu) (by simpa using hne)

/-- Witness for C8 at concrete inputs: closing signer 3 differs from the
recorded `rent_payer` 9, the deposit still goes to 9; a nonzero vault is
rejected. -/
theorem c8_close_requirements_witness :
    close_split_config wCfg 0 3 9 = .ok 9 ∧
    close_split_config wCfg 1 3 9 = .error .VaultNotEmpty := by
  constructor
  · exact (c8_close_requirements wCfg 0 3 9 (by decide) (by decide)).2.2
      rfl (by decide) (by decide)
  · exact (c8_close_requirements wCfg 1 3 9 (by decide) (by decide)).1
      (by decide)

/-- C9: `accept_protocol_authority` with a pending transfer and the exact
pending candidate signing sets `authority` to the candidate and resets
`pending_authority` to the none-sentinel; it fails with `NoPendingTransfer`
when no transfer is pending and with `Unauthorized` for any signer other than
the pending candidate (including the current authority self-accepting). -/
theorem c9_accept_authority (pc : ProtocolConfig) (signer : Nat) :
    (pc.pending_authority = 0 →
      accept_protocol_authority pc signer = .error .NoPendingTransfer) ∧
    (pc.pending_authority ≠ 0 → signer ≠ pc.pending_authority →
      accept_protocol_authority pc signer = .error .Unauthorized) ∧
    (pc.pending_authority ≠ 0 → signer = pc.pending_authority →
      accept_protocol_authority pc signer =
        .ok { pc with authority := signer, pending_authority := 0 }) := by
  refine ⟨?_, ?_, ?_⟩
  · intro h
    unfold accept_protocol_authority
    rw [if_pos h]
  · intro h hne
    unfold accept_protocol_authority
    rw [if_neg h, if_pos (by omega)]
  · intro h heq
    unfold accept_protocol_authority
    rw [if_neg h, if_neg (by omega)]

/-- Witness for C9 at concrete inputs: candidate 2 accepts; current authority
1 self-accepting is rejected; accepting with nothing pending is rejected. -/
theorem c9_accept_authority_witness :
    accept_protocol_authority
        { authority := 1, pending_authority := 2, fee_wallet := 7, bump := 0 } 2 =
      .ok { authority := 2, pending_authority := 0, fee_wallet := 7, bump := 0 } ∧
    accept_protocol_authority
        { authority := 1, pending_authority := 2, fee_wallet := 7, bump := 0 } 1 =
      .error .Unauthorized ∧
    accept_protocol_authority
        { authority := 1, pending_authority := 0, fee_wallet := 7, bump := 0 } 1 =
      .error .NoPendingTransfer := by
  refine ⟨?_, ?_, ?_⟩
  · exact (c9_accept_authority
      { authority := 1, pending_authority := 2, fee_wallet := 7, bump := 0 } 2).2.2
      (by decide) (by decide)
  · exact (c9_accept_authority
      { authority := 1, pending_authority := 2, fee_wallet := 7, bump := 0 } 1).2.1
      (by decide) (by decide)
  · exact (c9_accept_authority
      { authority := 1, pending_authority := 0, fee_wallet := 7, bump := 0 } 1).1
      (by decide)

/-- C10: both `initialize_protocol` and `update_protocol_config` reject the
all-zero address as fee wallet with the `ZeroAddress` error (and hence leave
the protocol configuration unchanged — an error result commits nothing). -/
theorem c10_zero_fee_wallet :
    (∀ (authority : Nat) (pd : ProgramData) (bump : Nat),
      initialize_protocol 0 authority pd bump = .error .ZeroAddress) ∧
    (∀ (pc : ProtocolConfig) (signer : Nat), signer = pc.authority →
      update_protocol_config pc signer 0 = .error .ZeroAddress) := by
  constructor
  · intro authority pd bump
    rfl
  · intro pc signer hs
    unfold update_protocol_config
    rw [if_neg (by simp [hs]), if_pos rfl]

/-- Witness for C10 at concrete inputs. -/
theorem c10_zero_fee_wallet_witness :
    initialize_protocol 0 1
        { keyIsExpectedPda := true, dataLen := 45, hasUpgradeAuthority := true,
          upgradeAuthority := 1 } 0 = .error .ZeroAddress ∧
    update_protocol_config
        { authority := 1, pending_authority := 0, fee_wallet := 7, bump := 0 } 1 0 =
      .error .ZeroAddress :=
  ⟨c10_zero_fee_wallet.1 1
      { keyIsExpectedPda := true, dataLen := 45, hasUpgradeAuthority := true,
        upgradeAuthority := 1 } 0,
    c10_zero_fee_wallet.2
      { authority := 1, pending_authority := 0, fee_wallet := 7, bump := 0 } 1 rfl⟩

/-! Behavioral lemmas about the distribution-engine loops. -/

theorem zip3_cons (r : Recipient) (rs : List Recipient) (u : UnclaimedAmount)
    (ul : List UnclaimedAmount) (a : Ata) (al : List Ata) :
    zip3 (r :: rs) (u :: ul) (a :: al) = (r, u, a) :: zip3 rs ul al :=
  rfl

theorem zip3_map_snd_fst :
    ∀ (rs : List Recipient) (ul : List UnclaimedAmount) (al : List Ata),
    rs.length = ul.length → ul.length = al.length →
    (zip3 rs ul al).map (fun it => it.2.1) = ul := by
  intro rs
  induction rs with
  | nil =>
    intro ul al h1 h2
    cases ul with
    | nil => rfl
    | cons u ul => simp at h1
  | cons r rs ih =>
    intro ul al h1 h2
    cases ul with
    | nil => simp at h1
    | cons u ul =>
      cases al with
      | nil => simp at h2
      | cons a al =>
        simp only [zip3, List.map_cons]
        rw [ih ul al (by simpa using h1) (by simpa using h2)]

theorem zip3_length :
    ∀ (rs : List Recipient) (ul : List UnclaimedAmount) (al : List Ata),
    rs.length = ul.length → ul.length = al.length →
    (zip3 rs ul al).length = ul.length := by
  intro rs
  induction rs with
  | nil =>
    intro ul al h1 h2
    cases ul with
    | nil => rfl
    | cons u ul => simp at h1
  | cons r rs ih =>
    intro ul al h1 h2
    cases ul with
    | nil => simp at h1
    | cons u ul =>
      cases al with
      | nil => simp at h2
      | cons a al =>
        simp only [zip3, List.length_cons]
        rw [ih ul al (by simpa using h1) (by simpa using h2)]

theorem distLoop_ok_facts {mk tp : Nat} {now : Int} {avail : Nat} :
    ∀ {items : List (Recipient × UnclaimedAmount × Ata)} {d0 h0 d hd : Nat}
      {us : List UnclaimedAmount},
    distLoop mk tp now avail items d0 h0 = .ok (d, hd, us) →
    us.length = items.length ∧ d0 ≤ d ∧ h0 ≤ hd ∧
      sumAmounts us + h0 =
        sumAmounts (items.map (fun it => it.2.1)) + hd ∧
      List.Forall₂ (distRel now avail) items us := by
  intro items
  induction items with
  | nil =>
    intro d0 h0 d hd us h
    simp only [distLoop, Except.ok.injEq, Prod.mk.injEq] at h
    obtain ⟨rfl, rfl, rfl⟩ := h
    simp [sumAmounts_nil]
  | cons it rest ih =>
    obtain ⟨r, u, a⟩ := it
    intro d0 h0 d hd us h
    simp only [distLoop] at h
    rcases hsh : shareAmount avail r.percentage_bps with e | amount
    · rw [hsh] at h
      simp at h
    · rw [hsh] at h
      simp only [] at h
      by_cases hz : amount = 0
      · rw [if_pos hz] at h
        rcases hrec : distLoop mk tp now avail rest d0 h0 with e | ⟨⟨d2, h2, us2⟩⟩
        · rw [hrec] at h
          simp at h
        · rw [hrec] at h
          simp only [Except.ok.injEq, Prod.mk.injEq] at h
          obtain ⟨rfl, rfl, rfl⟩ := h
          obtain ⟨hl, hd1, hh1, hs, hf⟩ := ih hrec
          refine ⟨by simp [hl], hd1, hh1, ?_, ?_⟩
          · simp only [List.map_cons, sumAmounts_cons]
            omega
          · exact List.Forall₂.cons (Or.inl rfl) hf
      · rw [if_neg hz] at h
        by_cases hef : a.dataEmpty = true ∨ is_account_frozen a = true
        · rw [if_pos hef] at h
          rcases hadd1 : checkedAdd64 u.amount amount with _ | newAmt
          · rw [hadd1] at h
            simp at h
          · rw [hadd1] at h
            simp only [] at h
            rcases hadd2 : checkedAdd64 h0 amount with _ | h0'
            · rw [hadd2] at h
              simp at h
            · rw [hadd2] at h
              simp only [] at h
              rcases hrec : distLoop mk tp now avail rest d0 h0' with e | ⟨⟨d2, h2, us2⟩⟩
              · rw [hrec] at h
                simp at h
              · rw [hrec] at h
                simp only [Except.ok.injEq, Prod.mk.injEq] at h
                obtain ⟨rfl, rfl, rfl⟩ := h
                obtain ⟨_, hnew⟩ := checkedAdd64_eq_some.mp hadd1
                obtain ⟨_, hh0'⟩ := checkedAdd64_eq_some.mp hadd2
                obtain ⟨hl, hd1, hh1, hs, hf⟩ := ih hrec
                refine ⟨by simp [hl], hd1, by omega, ?_, ?_⟩
                · simp only [List.map_cons, sumAmounts_cons]
                  simp only [hnew] at *
                  omega
                · refine List.Forall₂.cons ?_ hf
                  exact Or.inr ⟨amount, hsh, by omega, hef, by simp [hnew]⟩
        · rw [if_neg hef] at h
          rcases hval : validate_and_send_to_recipient a r mk tp with e | _
          · rw [hval] at h
            simp at h
          · rw [hval] at h
            simp only [] at h
            rcases hadd : checkedAdd64 d0 amount with _ | d0'
            · rw [hadd] at h
              simp at h
            · rw [hadd] at h
              simp only [] at h
              rcases hrec : distLoop mk tp now avail rest d0' h0 with e | ⟨⟨d2, h2, us2⟩⟩
              · rw [hrec] at h
                simp at h
              · rw [hrec] at h
                simp only [Except.ok.injEq, Prod.mk.injEq] at h
                obtain ⟨rfl, rfl, rfl⟩ := h
                obtain ⟨_, hd0'⟩ := checkedAdd64_eq_some.mp hadd
                obtain ⟨hl, hd1, hh1, hs, hf⟩ := ih hrec
                refine ⟨by simp [hl], by omega, hh1, ?_, ?_⟩
                · simp only [List.map_cons, sumAmounts_cons]
                  omega
                · exact List.Forall₂.cons (Or.inl rfl) hf

theorem healLoop_ok_facts {mk tp : Nat} :
    ∀ {items : List (Recipient × UnclaimedAmount × Ata)} {c0 c : Nat}
      {us : List UnclaimedAmount},
    healLoop mk tp items c0 = .ok (c, us) →
    us.length = items.length ∧ c0 ≤ c ∧
      sumAmounts us + c = sumAmounts (items.map (fun it => it.2.1)) + c0 ∧
      List.Forall₂ (healRel mk tp) items us := by
  intro items
  induction items with
  | nil =>
    intro c0 c us h
    simp only [healLoop, Except.ok.injEq, Prod.mk.injEq] at h
    obtain ⟨rfl, rfl⟩ := h
    simp [sumAmounts_nil]
  | cons it rest ih =>
    obtain ⟨r, u, a⟩ := it
    intro c0 c us h
    simp only [healLoop] at h
    by_cases hpos : u.amount > 0
    · rw [if_pos hpos] at h
      by_cases hef : a.dataEmpty = true ∨ is_account_frozen a = true
      · rw [if_pos hef] at h
        rcases hrec : healLoop mk tp rest c0 with e | ⟨⟨c2, us2⟩⟩
        · rw [hrec] at h
          simp at h
        · rw [hrec] at h
          simp only [Except.ok.injEq, Prod.mk.injEq] at h
          obtain ⟨rfl, rfl⟩ := h
          obtain ⟨hl, hc, hs, hf⟩ := ih hrec
          refine ⟨by simp [hl], hc, ?_, ?_⟩
          · simp only [List.map_cons, sumAmounts_cons]
            omega
          · exact List.Forall₂.cons (Or.inl ⟨rfl, Or.inr hef⟩) hf
      · rw [if_neg hef] at h
        rcases hval : validate_and_send_to_recipient a r mk tp with e | _
        · rw [hval] at h
          simp at h
        · rw [hval] at h
          simp only [] at h
          rcases hadd : checkedAdd64 c0 u.amount with _ | c0'
          · rw [hadd] at h
            simp at h
          · rw [hadd] at h
            simp only [] at h
            rcases hrec : healLoop mk tp rest c0' with e | ⟨⟨c2, us2⟩⟩
            · rw [hrec] at h
              simp at h
            · rw [hrec] at h
              simp only [Except.ok.injEq, Prod.mk.injEq] at h
              obtain ⟨rfl, rfl⟩ := h
              obtain ⟨_, hc0'⟩ := checkedAdd64_eq_some.mp hadd
              obtain ⟨hl, hc, hs, hf⟩ := ih hrec
              push_neg at hef
              refine ⟨by simp [hl], by omega, ?_, ?_⟩
              · have h1 : sumAmounts ({ u with amount := 0 } :: us2) =
                    0 + sumAmounts us2 := by
                  rw [sumAmounts_cons]
                have h2 : sumAmounts (((r, u, a) :: rest).map (fun it => it.2.1)) =
                    u.amount + sumAmounts (rest.map (fun it => it.2.1)) := by
                  simp [sumAmounts_cons]
                rw [h1, h2]
                omega
              · refine List.Forall₂.cons ?_ hf
                exact Or.inr ⟨rfl, hpos, by simpa using hef.1, by simpa using hef.2, hval⟩
    · rw [if_neg hpos] at h
      rcases hrec : healLoop mk tp rest c0 with e | ⟨⟨c2, us2⟩⟩
      · rw [hrec] at h
        simp at h
      · rw [hrec] at h
        simp only [Except.ok.injEq, Prod.mk.injEq] at h
        obtain ⟨rfl, rfl⟩ := h
        obtain ⟨hl, hc, hs, hf⟩ := ih hrec
        refine ⟨by simp [hl], hc, ?_, ?_⟩
        · simp only [List.map_cons, sumAmounts_cons]
          omega
        · exact List.Forall₂.cons (Or.inl ⟨rfl, Or.inl (by show u.amount = 0; omega)⟩) hf

theorem healLoop_again {mk tp : Nat} :
    ∀ (recips : List Recipient) (uncl : List UnclaimedAmount)
      (atas : List Ata) (c0 c : Nat) (us : List UnclaimedAmount),
    healLoop mk tp (zip3 recips uncl atas) c0 = .ok (c, us) →
    healLoop mk tp (zip3 recips us atas) 0 = .ok (0, us) := by
  intro recips
  induction recips with
  | nil =>
    intro uncl atas c0 c us h
    simp only [zip3, healLoop, Except.ok.injEq, Prod.mk.injEq] at h
    obtain ⟨rfl, rfl⟩ := h
    simp [zip3, healLoop]
  | cons r rs ih =>
    intro uncl atas c0 c us h
    cases uncl with
    | nil =>
      simp only [zip3, healLoop, Except.ok.injEq, Prod.mk.injEq] at h
      obtain ⟨rfl, rfl⟩ := h
      simp [zip3, healLoop]
    | cons u ul =>
      cases atas with
      | nil =>
        simp only [zip3, healLoop, Except.ok.injEq, Prod.mk.injEq] at h
        obtain ⟨rfl, rfl⟩ := h
        simp [zip3, healLoop]
      | cons a al =>
        simp only [zip3_cons, healLoop] at h
        by_cases hpos : u.amount > 0
        · rw [if_pos hpos] at h
          by_cases hef : a.dataEmpty = true ∨ is_account_frozen a = true
          · rw [if_pos hef] at h
            rcases hrec : healLoop mk tp (zip3 rs ul al) c0 with e | ⟨⟨c2, us2⟩⟩
            · rw [hrec] at h
              simp at h
            · rw [hrec] at h
              simp only [Except.ok.injEq, Prod.mk.injEq] at h
              obtain ⟨rfl, rfl⟩ := h
              have ihr := ih ul al c0 c2 us2 hrec
              simp only [zip3_cons, healLoop]
              rw [if_pos hpos, if_pos hef, ihr]
          · rw [if_neg hef] at h
            rcases hval : validate_and_send_to_recipient a r mk tp with e | _
            · rw [hval] at h
              simp at h
            · rw [hval] at h
              simp only [] at h
              rcases hadd : checkedAdd64 c0 u.amount with _ | c0'
              · rw [hadd] at h
                simp at h
              · rw [hadd] at h
                simp only [] at h
                rcases hrec : healLoop mk tp (zip3 rs ul al) c0' with e | ⟨⟨c2, us2⟩⟩
                · rw [hrec] at h
                  simp at h
                · rw [hrec] at h
                  simp only [Except.ok.injEq, Prod.mk.injEq] at h
                  obtain ⟨rfl, rfl⟩ := h
                  have ihr := ih ul al c0' c2 us2 hrec
                  simp only [zip3_cons, healLoop]
                  rw [if_neg (by simp), ihr]
        · rw [if_neg hpos] at h
          rcases hrec : healLoop mk tp (zip3 rs ul al) c0 with e | ⟨⟨c2, us2⟩⟩
          · rw [hrec] at h
            simp at h
          · rw [hrec] at h
            simp only [Except.ok.injEq, Prod.mk.injEq] at h
            obtain ⟨rfl, rfl⟩ := h
            have ihr := ih ul al c0 c2 us2 hrec
            simp only [zip3_cons, healLoop]
            rw [if_neg hpos, ihr]

theorem protocolFeeStep_ok_cases {pa : Ata} {fw mk tp fee p0 fs p1 : Nat}
    (h : protocolFeeStep pa fw mk tp fee p0 = .ok (fs, p1)) :
    (fee = 0 ∧ fs = 0 ∧ p1 = p0) ∨
    (0 < fee ∧ fs = 0 ∧ p1 = p0 + fee ∧
      (pa.dataEmpty = true ∨ is_account_frozen pa = true)) ∨
    (0 < fee ∧ fs = fee ∧ p1 = p0 ∧ pa.dataEmpty = false ∧
      is_account_frozen pa = false ∧ validOwnerProg pa ∧ pa.deserOk = true ∧
      pa.tokOwner = fw ∧ pa.tokMint = mk) := by
  unfold protocolFeeStep at h
  by_cases h0 : fee = 0
  · rw [if_pos h0] at h
    simp only [Except.ok.injEq, Prod.mk.injEq] at h
    exact Or.inl ⟨h0, h.1.symm, h.2.symm⟩
  · rw [if_neg h0] at h
    split at h
    · simp at h
    split at h
    · simp at h
    next hwr =>
    by_cases hef : pa.dataEmpty = true ∨ is_account_frozen pa = true
    · rw [if_pos hef] at h
      rcases hadd : checkedAdd64 p0 fee with _ | p'
      · rw [hadd] at h
        simp at h
      · rw [hadd] at h
        simp only [Except.ok.injEq, Prod.mk.injEq] at h
        obtain ⟨_, hadd'⟩ := checkedAdd64_eq_some.mp hadd
        refine Or.inr (Or.inl ⟨by omega, h.1.symm, ?_, hef⟩)
        omega
    · rw [if_neg hef] at h
      split at h
      · simp at h
      next hvo =>
      split at h
      · simp at h
      next hdes =>
      split at h
      · simp at h
      next hown =>
      split at h
      · simp at h
      next hmint =>
      simp only [Except.ok.injEq, Prod.mk.injEq] at h
      push_neg at hef
      refine Or.inr (Or.inr ⟨by omega, h.1.symm, h.2.symm,
        by simpa using hef.1, by simpa using hef.2, not_not.mp hvo, ?_, by omega, by omega⟩)
      simpa using hdes

theorem protocolHealStep_cases (pa : Ata) (fw mk p : Nat) :
    (protocolHealStep pa fw mk p = (p, 0) ∧
      (p = 0 ∨ pa.dataEmpty = true ∨ is_account_frozen pa = true ∨
        ¬(validOwnerProg pa ∧ pa.deserOk = true ∧ pa.tokOwner = fw ∧
          pa.tokMint = mk))) ∨
    (protocolHealStep pa fw mk p = (0, p) ∧ 0 < p ∧ pa.dataEmpty = false ∧
      is_account_frozen pa = false ∧ validOwnerProg pa ∧ pa.deserOk = true ∧
      pa.tokOwner = fw ∧ pa.tokMint = mk) := by
  unfold protocolHealStep
  by_cases hp : p > 0
  · rw [if_pos hp]
    by_cases hef : pa.dataEmpty = true ∨ is_account_frozen pa = true
    · rw [if_pos hef]
      exact Or.inl ⟨rfl, Or.inr (by tauto)⟩
    · rw [if_neg hef]
      by_cases hv : validOwnerProg pa ∧ pa.deserOk = true ∧ pa.tokOwner = fw ∧
          pa.tokMint = mk
      · rw [if_pos hv]
        push_neg at hef
        exact Or.inr ⟨rfl, hp, by simpa using hef.1, by simpa using hef.2,
          hv.1, hv.2.1, hv.2.2.1, hv.2.2.2⟩
      · rw [if_neg hv]
        exact Or.inl ⟨rfl, Or.inr (Or.inr (Or.inr hv))⟩
  · rw [if_neg hp]
    exact Or.inl ⟨rfl, Or.inl (by omega)⟩

theorem protocolHealStep_noop {pa : Ata} {fw mk p : Nat}
    (h : p = 0 ∨ pa.dataEmpty = true ∨ is_account_frozen pa = true ∨
      ¬(validOwnerProg pa ∧ pa.deserOk = true ∧ pa.tokOwner = fw ∧
        pa.tokMint = mk)) :
    protocolHealStep pa fw mk p = (p, 0) := by
  rcases protocolHealStep_cases pa fw mk p with ⟨heq, _⟩ | ⟨heq, hpos, he, hf, hv⟩
  · exact heq
  · rcases h with h | h | h | h
    · rw [heq, h]
    · rw [he] at h
      cases h
    · rw [hf] at h
      cases h
    · exact absurd ⟨hv.1, hv.2.1, hv.2.2.1, hv.2.2.2⟩ h

theorem execute_split_ok_elim {cfg : SplitConfig} {env : ExecEnv} {out : ExecOut}
    (h : execute_split cfg env = .ok out) :
    ∃ (totalU available distributed held fee feeSent proto1 cleared : Nat)
      (uncl1 uncl2 : List UnclaimedAmount) (proto2 protoCleared : Nat),
      env.remaining.length > cfg.recipient_count ∧
      totalU = sumAmounts (cfg.unclaimed_amounts.take cfg.recipient_count) ∧
      totalU + cfg.protocol_unclaimed ≤ env.vaultBalance ∧
      available = env.vaultBalance - totalU - cfg.protocol_unclaimed ∧
      (if available > 0 then
          distLoop env.mintKey env.tokenProg env.now available
            (zip3 (cfg.recipients.take cfg.recipient_count)
              (cfg.unclaimed_amounts.take cfg.recipient_count)
              (env.remaining.take cfg.recipient_count)) 0 0
        else .ok (0, 0, cfg.unclaimed_amounts.take cfg.recipient_count)) =
        .ok (distributed, held, uncl1) ∧
      distributed + held ≤ available ∧
      fee = available - distributed - held ∧
      protocolFeeStep (lastAta env.remaining) env.feeWallet env.mintKey
        env.tokenProg fee cfg.protocol_unclaimed = .ok (feeSent, proto1) ∧
      healLoop env.mintKey env.tokenProg
        (zip3 (cfg.recipients.take cfg.recipient_count) uncl1
          (env.remaining.take cfg.recipient_count)) 0 = .ok (cleared, uncl2) ∧
      protocolHealStep (lastAta env.remaining) env.feeWallet env.mintKey
        proto1 = (proto2, protoCleared) ∧
      out = { available := available, distributed := distributed,
              heldAsUnclaimed := held, protocolFee := fee,
              protocolFeeSent := feeSent, unclaimedCleared := cleared,
              protocolUnclaimedCleared := protoCleared, newUnclaimed := uncl2,
              newProtocolUnclaimed := proto2 } := by
  simp only [execute_split] at h
  split at h
  · exact absurd h (by simp)
  next hguard =>
  split at h
  · exact absurd h (by simp)
  next totalU hsum =>
  split at h
  · exact absurd h (by simp)
  next t1 hsub1 =>
  split at h
  · exact absurd h (by simp)
  next available hsub2 =>
  split at h
  · exact absurd h (by simp)
  next distributed held uncl1 hdist =>
  split at h
  · exact absurd h (by simp)
  next afterDist hsub3 =>
  split at h
  · exact absurd h (by simp)
  next fee hsub4 =>
  split at h
  · exact absurd h (by simp)
  next feeSent proto1 hfee =>
  split at h
  · exact absurd h (by simp)
  next cleared uncl2 hheal =>
  rcases hph : protocolHealStep (lastAta env.remaining) env.feeWallet env.mintKey
      proto1 with ⟨proto2, protoCleared⟩
  rw [hph] at h
  simp only [Except.ok.injEq] at h
  have e1 := sumUnclaimedChecked_some hsum
  have e2 := checkedSub_eq_some.mp hsub1
  have e3 := checkedSub_eq_some.mp hsub2
  have e4 := checkedSub_eq_some.mp hsub3
  have e5 := checkedSub_eq_some.mp hsub4
  refine ⟨totalU, available, distributed, held, fee, feeSent, proto1, cleared,
    uncl1, uncl2, proto2, protoCleared, by omega, by omega, by omega, by omega,
    hdist, by omega, by omega, hfee, hheal, hph, h.symm⟩

/-- C4: `execute_split` is idempotent on an unchanged pooled balance: after a
successful call, re-running it on the written-back record with the
post-transfer vault balance and unchanged receiving-account state computes
`available = 0`, performs no transfer (nothing distributed, no fee sent,
nothing cleared), still runs the self-healing pass, and leaves every
liability exactly as the first call left it. -/
theorem c4_idempotent (cfg : SplitConfig) (env : ExecEnv) (out : ExecOut)
    (hrec : cfg.recipient_count ≤ cfg.recipients.length)
    (hunc : cfg.recipient_count ≤ cfg.unclaimed_amounts.length)
    (hvb : env.vaultBalance < U64)
    (h : execute_split cfg env = .ok out) :
    execute_split (applyExec cfg out env.now)
        { env with vaultBalance := postVault env out } =
      .ok { available := 0, distributed := 0, heldAsUnclaimed := 0,
            protocolFee := 0, protocolFeeSent := 0, unclaimedCleared := 0,
            protocolUnclaimedCleared := 0, newUnclaimed := out.newUnclaimed,
            newProtocolUnclaimed := out.newProtocolUnclaimed } := by
  obtain ⟨totalU, available, distributed, held, fee, feeSent, proto1, cleared,
    uncl1, uncl2, proto2, protoCleared, hguard, he1, hle1, hav, hdist, hle2,
    hfee, hfeestep, hheal, hph, hout⟩ := execute_split_ok_elim h
  have hlr : (cfg.recipients.take cfg.recipient_count).length =
      cfg.recipient_count := by
    simp [List.length_take]
    omega
  have hlu : (cfg.unclaimed_amounts.take cfg.recipient_count).length =
      cfg.recipient_count := by
    simp [List.length_take]
    omega
  have hla : (env.remaining.take cfg.recipient_count).length =
      cfg.recipient_count := by
    simp [List.length_take]
    omega
  -- distribution-loop facts, covering the `available = 0` shortcut
  have hdistfacts : uncl1.length = cfg.recipient_count ∧
      sumAmounts uncl1 =
        sumAmounts (cfg.unclaimed_amounts.take cfg.recipient_count) + held := by
    by_cases hav0 : available > 0
    · rw [if_pos hav0] at hdist
      obtain ⟨hl, _, _, hs, _⟩ := distLoop_ok_facts hdist
      rw [zip3_length _ _ _ (by omega) (by omega)] at hl
      rw [zip3_map_snd_fst _ _ _ (by omega) (by omega)] at hs
      exact ⟨by omega, by omega⟩
    · rw [if_neg hav0] at hdist
      simp only [Except.ok.injEq, Prod.mk.injEq] at hdist
      obtain ⟨rfl, rfl, rfl⟩ := hdist
      exact ⟨hlu, by omega⟩
  obtain ⟨hl1, hs1⟩ := hdistfacts
  -- healing-loop facts
  obtain ⟨hl2, hcl, hs2, _⟩ := healLoop_ok_facts hheal
  rw [zip3_length _ _ _ (by omega) (by omega)] at hl2
  rw [zip3_map_snd_fst _ _ _ (by omega) (by omega)] at hs2
  -- fee-step accounting
  have hfs : feeSent ≤ fee ∧ proto1 + feeSent = cfg.protocol_unclaimed + fee := by
    rcases protocolFeeStep_ok_cases hfeestep with ⟨h0, rfl, rfl⟩ |
      ⟨_, rfl, rfl, _⟩ | ⟨_, rfl, rfl, _⟩
    · omega
    · omega
    · omega
  -- protocol-heal accounting
  have hphacc : proto2 + protoCleared = proto1 := by
    rcases protocolHealStep_cases (lastAta env.remaining) env.feeWallet
        env.mintKey proto1 with ⟨heq, _⟩ | ⟨heq, _⟩
    · rw [hph] at heq
      simp only [Prod.mk.injEq] at heq
      omega
    · rw [hph] at heq
      simp only [Prod.mk.injEq] at heq
      omega
  -- key conservation identity for the second call
  have hkey : sumAmounts uncl2 + proto2 =
      env.vaultBalance - (distributed + feeSent + cleared + protoCleared) ∧
      distributed + feeSent + cleared + protoCleared ≤ env.vaultBalance := by
    constructor
    · omega
    · omega
  -- second-call protocol healing is a no-op on the remaining liability
  have hph2 : protocolHealStep (lastAta env.remaining) env.feeWallet env.mintKey
      proto2 = (proto2, 0) := by
    rcases protocolHealStep_cases (lastAta env.remaining) env.feeWallet
        env.mintKey proto1 with ⟨heq, hcond⟩ | ⟨heq, _⟩
    · rw [hph] at heq
      simp only [Prod.mk.injEq] at heq
      obtain ⟨rfl, rfl⟩ := heq
      exact protocolHealStep_noop hcond
    · rw [hph] at heq
      simp only [Prod.mk.injEq] at heq
      obtain ⟨rfl, rfl⟩ := heq
      exact protocolHealStep_noop (Or.inl rfl)
  -- second-call recipient healing is a no-op
  have hh2 : healLoop env.mintKey env.tokenProg
      (zip3 (cfg.recipients.take cfg.recipient_count) uncl2
        (env.remaining.take cfg.recipient_count)) 0 = .ok (0, uncl2) :=
    healLoop_again _ _ _ _ _ _ hheal
  subst hout
  simp only [applyExec, postVault, execute_split]
  rw [if_neg (by omega)]
  have htake : (uncl2 ++ cfg.unclaimed_amounts.drop uncl2.length).take
      cfg.recipient_count = uncl2 := by
    rw [List.take_left' (hl2.trans hl1)]
  rw [htake]
  rw [sumUnclaimedChecked_of_bound (show 0 + sumAmounts uncl2 < U64 by omega)]
  simp only [Nat.zero_add]
  rw [show checkedSub
        (env.vaultBalance - (distributed + feeSent + cleared + protoCleared))
        (sumAmounts uncl2) = some proto2 from
      checkedSub_eq_some.mpr ⟨by omega, by omega⟩]
  simp only []
  rw [show checkedSub proto2 proto2 = some 0 from
      checkedSub_eq_some.mpr ⟨le_refl _, by omega⟩]
  simp only []
  rw [if_neg (show ¬ (0 : Nat) > 0 by omega)]
  simp only []
  rw [show checkedSub 0 0 = some 0 from rfl]
  simp only []
  rw [show checkedSub 0 0 = some 0 from rfl]
  simp only []
  rw [show protocolFeeStep (lastAta env.remaining) env.feeWallet env.mintKey
        env.tokenProg 0 proto2 = .ok (0, proto2) from rfl]
  simp only []
  rw [hh2]
  simp only []
  rw [hph2]

/-- Witness for C4 at a concrete input: the fixture first call re-executed on
its own written-back state is a transfer-free no-op. -/
theorem c4_idempotent_witness :
    execute_split (applyExec wCfg wOut999 wEnv999.now)
        { wEnv999 with vaultBalance := postVault wEnv999 wOut999 } =
      .ok { available := 0, distributed := 0, heldAsUnclaimed := 0,
            protocolFee := 0, protocolFeeSent := 0, unclaimedCleared := 0,
            protocolUnclaimedCleared := 0,
            newUnclaimed := wOut999.newUnclaimed,
            newProtocolUnclaimed := wOut999.newProtocolUnclaimed } :=
  c4_idempotent wCfg wEnv999 wOut999 (by decide) (by decide) (by decide) (by rfl)

theorem getD_take {α : Type} {l : List α} {n i : Nat} (h : i < n) (d : α) :
    (l.take n).getD i d = l.getD i d := by
  by_cases hl : i < l.length
  · have ht : i < (l.take n).length := by
      simp [List.length_take]
      omega
    rw [List.getD_eq_getElem _ _ ht, List.getD_eq_getElem _ _ hl]
    simp [List.get_eq_getElem, List.getElem_take]
  · have h1 : l.length ≤ i := by omega
    have h2 : (l.take n).length ≤ i := by
      simp [List.length_take]
      omega
    rw [List.getD_eq_default _ _ h1, List.getD_eq_default _ _ h2]

theorem zip3_getD :
    ∀ (rs : List Recipient) (ul : List UnclaimedAmount) (al : List Ata)
      (i : Nat), i < rs.length → i < ul.length → i < al.length →
    (zip3 rs ul al).getD i (defaultRecipient, defaultUnclaimed, defaultAta) =
      (rs.getD i defaultRecipient, ul.getD i defaultUnclaimed,
        al.getD i defaultAta) := by
  intro rs
  induction rs with
  | nil =>
    intro ul al i h1 h2 h3
    simp at h1
  | cons r rrest ih =>
    intro ul al i h1 h2 h3
    cases ul with
    | nil => simp at h2
    | cons u urest =>
      cases al with
      | nil => simp at h3
      | cons a arest =>
        cases i with
        | zero => rfl
        | succ j =>
          simp only [zip3, List.getD_cons_succ]
          exact ih urest arest j (by simpa using h1) (by simpa using h2)
            (by simpa using h3)

theorem forall₂_getD {α β : Type} {R : α → β → Prop} {l₁ : List α}
    {l₂ : List β} (h : List.Forall₂ R l₁ l₂) {i : Nat} (h1 : i < l₁.length)
    (dx : α) (dy : β) : R (l₁.getD i dx) (l₂.getD i dy) := by
  have h2 : i < l₂.length := h.length_eq ▸ h1
  rw [List.getD_eq_getElem _ dx h1, List.getD_eq_getElem _ dy h2]
  exact h.get h1 h2

theorem exec_index_facts {cfg : SplitConfig} {env : ExecEnv} {out : ExecOut}
    (hrec : cfg.recipient_count ≤ cfg.recipients.length)
    (hunc : cfg.recipient_count ≤ cfg.unclaimed_amounts.length)
    (h : execute_split cfg env = .ok out) {i : Nat}
    (hi : i < cfg.recipient_count) :
    ∃ mid : UnclaimedAmount,
      (mid = cfg.unclaimed_amounts.getD i defaultUnclaimed ∨
        ((cfg.unclaimed_amounts.getD i defaultUnclaimed).amount < mid.amount ∧
          ((env.remaining.getD i defaultAta).dataEmpty = true ∨
            is_account_frozen (env.remaining.getD i defaultAta) = true))) ∧
      ((out.newUnclaimed.getD i defaultUnclaimed = mid ∧
          (mid.amount = 0 ∨ (env.remaining.getD i defaultAta).dataEmpty = true ∨
            is_account_frozen (env.remaining.getD i defaultAta) = true)) ∨
        (out.newUnclaimed.getD i defaultUnclaimed = { mid with amount := 0 } ∧
          0 < mid.amount ∧ (env.remaining.getD i defaultAta).dataEmpty = false ∧
          is_account_frozen (env.remaining.getD i defaultAta) = false ∧
          validate_and_send_to_recipient (env.remaining.getD i defaultAta)
            (cfg.recipients.getD i defaultRecipient) env.mintKey env.tokenProg =
            .ok ())) := by
  obtain ⟨totalU, available, distributed, held, fee, feeSent, proto1, cleared,
    uncl1, uncl2, proto2, protoCleared, hguard, he1, hle1, hav, hdist, hle2,
    hfee, hfeestep, hheal, hph, hout⟩ := execute_split_ok_elim h
  have hlr : (cfg.recipients.take cfg.recipient_count).length =
      cfg.recipient_count := by
    simp [List.length_take]
    omega
  have hlu : (cfg.unclaimed_amounts.take cfg.recipient_count).length =
      cfg.recipient_count := by
    simp [List.length_take]
    omega
  have hla : (env.remaining.take cfg.recipient_count).length =
      cfg.recipient_count := by
    simp [List.length_take]
    omega
  -- the distribution loop's effect on entry i
  have hmid : uncl1.length = cfg.recipient_count ∧
      (uncl1.getD i defaultUnclaimed =
          cfg.unclaimed_amounts.getD i defaultUnclaimed ∨
        ((cfg.unclaimed_amounts.getD i defaultUnclaimed).amount <
            (uncl1.getD i defaultUnclaimed).amount ∧
          ((env.remaining.getD i defaultAta).dataEmpty = true ∨
            is_account_frozen (env.remaining.getD i defaultAta) = true))) := by
    by_cases hav0 : available > 0
    · rw [if_pos hav0] at hdist
      obtain ⟨hl, _, _, _, hf⟩ := distLoop_ok_facts hdist
      have hitems : (zip3 (cfg.recipients.take cfg.recipient_count)
          (cfg.unclaimed_amounts.take cfg.recipient_count)
          (env.remaining.take cfg.recipient_count)).length =
          cfg.recipient_count := by
        rw [zip3_length _ _ _ (by omega) (by omega), hlu]
      refine ⟨by omega, ?_⟩
      have hR := forall₂_getD hf (by omega : i < (zip3 _ _ _).length)
        (defaultRecipient, defaultUnclaimed, defaultAta) defaultUnclaimed
      rw [zip3_getD _ _ _ i (by omega) (by omega) (by omega)] at hR
      simp only [distRel, getD_take hi] at hR
      rcases hR with hR | ⟨amt, _, hamt, hef, hR⟩
      · exact Or.inl hR
      · right
        constructor
        · rw [hR]
          simp
          omega
        · exact hef
    · rw [if_neg hav0] at hdist
      simp only [Except.ok.injEq, Prod.mk.injEq] at hdist
      obtain ⟨rfl, rfl, rfl⟩ := hdist
      exact ⟨hlu, Or.inl (getD_take hi _)⟩
  obtain ⟨hl1, hmid⟩ := hmid
  -- the healing loop's effect on entry i
  obtain ⟨hl2, _, _, hf2⟩ := healLoop_ok_facts hheal
  have hitems2 : (zip3 (cfg.recipients.take cfg.recipient_count) uncl1
      (env.remaining.take cfg.recipient_count)).length =
      cfg.recipient_count := by
    rw [zip3_length _ _ _ (by omega) (by omega)]
    omega
  have hR2 := forall₂_getD hf2 (by omega : i < (zip3 _ _ _).length)
    (defaultRecipient, defaultUnclaimed, defaultAta) defaultUnclaimed
  rw [zip3_getD _ _ _ i (by omega) (by omega) (by omega)] at hR2
  simp only [healRel, getD_take hi] at hR2
  refine ⟨uncl1.getD i defaultUnclaimed, hmid, ?_⟩
  subst hout
  simp only []
  rcases hR2 with ⟨hR2, hcond⟩ | ⟨hR2, hpos, hemp, hfro, hval⟩
  · exact Or.inl ⟨hR2, hcond⟩
  · exact Or.inr ⟨hR2, hpos, hemp, hfro, hval⟩

theorem exec_protocol_facts {cfg : SplitConfig} {env : ExecEnv} {out : ExecOut}
    (h : execute_split cfg env = .ok out) :
    (out.newProtocolUnclaimed = 0 ∨
      cfg.protocol_unclaimed ≤ out.newProtocolUnclaimed) ∧
    (cfg.protocol_unclaimed < out.newProtocolUnclaimed →
      ((lastAta env.remaining).dataEmpty = true ∨
        is_account_frozen (lastAta env.remaining) = true)) ∧
    (0 < cfg.protocol_unclaimed → (lastAta env.remaining).dataEmpty = false →
      is_account_frozen (lastAta env.remaining) = false →
      validOwnerProg (lastAta env.remaining) →
      (lastAta env.remaining).deserOk = true →
      (lastAta env.remaining).tokOwner = env.feeWallet →
      (lastAta env.remaining).tokMint = env.mintKey →
      out.newProtocolUnclaimed = 0) ∧
    ((lastAta env.remaining).dataEmpty = false →
      is_account_frozen (lastAta env.remaining) = false →
      ¬(validOwnerProg (lastAta env.remaining) ∧
        (lastAta env.remaining).deserOk = true ∧
        (lastAta env.remaining).tokOwner = env.feeWallet ∧
        (lastAta env.remaining).tokMint = env.mintKey) →
      out.newProtocolUnclaimed = cfg.protocol_unclaimed ∧
        out.protocolUnclaimedCleared = 0 ∧ out.protocolFeeSent = 0) := by
  obtain ⟨totalU, available, distributed, held, fee, feeSent, proto1, cleared,
    uncl1, uncl2, proto2, protoCleared, hguard, he1, hle1, hav, hdist, hle2,
    hfee, hfeestep, hheal, hph, hout⟩ := execute_split_ok_elim h
  subst hout
  simp only []
  have hfs3 := protocolFeeStep_ok_cases hfeestep
  have hhs := protocolHealStep_cases (lastAta env.remaining) env.feeWallet
    env.mintKey proto1
  refine ⟨?_, ?_, ?_, ?_⟩
  · rcases hhs with ⟨heq, _⟩ | ⟨heq, _⟩
    · rw [hph] at heq
      simp only [Prod.mk.injEq] at heq
      obtain ⟨rfl, rfl⟩ := heq
      rcases hfs3 with ⟨_, rfl, rfl⟩ | ⟨_, rfl, rfl, _⟩ | ⟨_, rfl, rfl, _⟩
      · exact Or.inr (le_refl _)
      · exact Or.inr (by omega)
      · exact Or.inr (le_refl _)
    · rw [hph] at heq
      simp only [Prod.mk.injEq] at heq
      obtain ⟨rfl, rfl⟩ := heq
      exact Or.inl rfl
  · intro hlt
    rcases hhs with ⟨heq, _⟩ | ⟨heq, _⟩
    · rw [hph] at heq
      simp only [Prod.mk.injEq] at heq
      obtain ⟨rfl, rfl⟩ := heq
      rcases hfs3 with ⟨_, rfl, rfl⟩ | ⟨_, rfl, rfl, hefp⟩ | ⟨_, rfl, rfl, _⟩
      · omega
      · exact hefp
      · omega
    · rw [hph] at heq
      simp only [Prod.mk.injEq] at heq
      obtain ⟨rfl, rfl⟩ := heq
      omega
  · intro hp0 hpe hpf hvo hdes hto htm
    rcases hhs with ⟨heq, hcond⟩ | ⟨heq, _⟩
    · rw [hph] at heq
      simp only [Prod.mk.injEq] at heq
      obtain ⟨rfl, rfl⟩ := heq
      rcases hcond with h0 | hc | hc | hc
      · rcases hfs3 with ⟨_, rfl, rfl⟩ | ⟨_, rfl, rfl, _⟩ | ⟨_, rfl, rfl, _⟩ <;>
          omega
      · rw [hpe] at hc
        cases hc
      · rw [hpf] at hc
        cases hc
      · exact absurd ⟨hvo, hdes, hto, htm⟩ hc
    · rw [hph] at heq
      simp only [Prod.mk.injEq] at heq
      obtain ⟨rfl, rfl⟩ := heq
      rfl
  · intro hpe hpf hninv
    rcases hfs3 with ⟨hfee0, rfl, rfl⟩ | ⟨_, rfl, rfl, hefp⟩ |
      ⟨_, rfl, rfl, _, _, hvo, hdes, hto, htm⟩
    · rcases hhs with ⟨heq, _⟩ | ⟨heq, _, _, _, hvo, hdes, hto, htm⟩
      · rw [hph] at heq
        simp only [Prod.mk.injEq] at heq
        obtain ⟨rfl, rfl⟩ := heq
        exact ⟨rfl, rfl, rfl⟩
      · exact absurd ⟨hvo, hdes, hto, htm⟩ hninv
    · rcases hefp with hc | hc
      · rw [hpe] at hc
        cases hc
      · rw [hpf] at hc
        cases hc
    · exact absurd ⟨hvo, hdes, hto, htm⟩ hninv

/-- C6: across a successful `execute_split` call every liability is
monotonically decreasing except for new accrual (an increase is possible only
when the entry's receiving account is missing or frozen, i.e. by accrual in
the distribution / fee steps); a liability is never reduced to a nonzero
remainder (it either keeps at least its old value or drops to exactly zero);
and a previously nonzero liability whose receiving account is present and
unfrozen (and, for the protocol entry, passes owner/asset validation) is
cleared to exactly zero in that one call. -/
theorem c6_monotone_liabilities (cfg : SplitConfig) (env : ExecEnv)
    (out : ExecOut) (hrec : cfg.recipient_count ≤ cfg.recipients.length)
    (hunc : cfg.recipient_count ≤ cfg.unclaimed_amounts.length)
    (h : execute_split cfg env = .ok out) :
    (∀ i, i < cfg.recipient_count →
      ((out.newUnclaimed.getD i defaultUnclaimed).amount = 0 ∨
        (cfg.unclaimed_amounts.getD i defaultUnclaimed).amount ≤
          (out.newUnclaimed.getD i defaultUnclaimed).amount) ∧
      ((cfg.unclaimed_amounts.getD i defaultUnclaimed).amount <
          (out.newUnclaimed.getD i defaultUnclaimed).amount →
        ((env.remaining.getD i defaultAta).dataEmpty = true ∨
          is_account_frozen (env.remaining.getD i defaultAta) = true)) ∧
      (0 < (cfg.unclaimed_amounts.getD i defaultUnclaimed).amount →
        (env.remaining.getD i defaultAta).dataEmpty = false →
        is_account_frozen (env.remaining.getD i defaultAta) = false →
        (out.newUnclaimed.getD i defaultUnclaimed).amount = 0)) ∧
    (out.newProtocolUnclaimed = 0 ∨
      cfg.protocol_unclaimed ≤ out.newProtocolUnclaimed) ∧
    (cfg.protocol_unclaimed < out.newProtocolUnclaimed →
      ((lastAta env.remaining).dataEmpty = true ∨
        is_account_frozen (lastAta env.remaining) = true)) ∧
    (0 < cfg.protocol_unclaimed → (lastAta env.remaining).dataEmpty = false →
      is_account_frozen (lastAta env.remaining) = false →
      validOwnerProg (lastAta env.remaining) →
      (lastAta env.remaining).deserOk = true →
      (lastAta env.remaining).tokOwner = env.feeWallet →
      (lastAta env.remaining).tokMint = env.mintKey →
      out.newProtocolUnclaimed = 0) := by
  obtain ⟨hp1, hp2, hp3, _⟩ := exec_protocol_facts h
  refine ⟨?_, hp1, hp2, hp3⟩
  intro i hi
  obtain ⟨mid, hmid, hheal⟩ := exec_index_facts hrec hunc h hi
  refine ⟨?_, ?_, ?_⟩
  · rcases hheal with ⟨hnw, _⟩ | ⟨hnw, _⟩
    · rcases hmid with hm | ⟨hm, _⟩
      · rw [hnw, hm]
        exact Or.inr (le_refl _)
      · rw [hnw]
        exact Or.inr (by omega)
    · rw [hnw]
      exact Or.inl rfl
  · intro hlt
    rcases hheal with ⟨hnw, _⟩ | ⟨hnw, _⟩
    · rcases hmid with hm | ⟨_, hef⟩
      · rw [hnw, hm] at hlt
        omega
      · exact hef
    · rw [hnw] at hlt
      simp at hlt
  · intro hpos hpe hpf
    have hm : mid.amount = (cfg.unclaimed_amounts.getD i defaultUnclaimed).amount ∨
        (cfg.unclaimed_amounts.getD i defaultUnclaimed).amount < mid.amount := by
      rcases hmid with hm | ⟨hm, hef⟩
      · rw [hm]
        exact Or.inl rfl
      · exact Or.inr hm
    rcases hheal with ⟨hnw, hcond⟩ | ⟨hnw, _⟩
    · rcases hcond with hc | hc | hc
      · omega
      · rw [hpe] at hc
        cases hc
      · rw [hpf] at hc
        cases hc
    · rw [hnw]

/-- Witness for C6 at a concrete input: the fixture liability of 5 with a
present, unfrozen, valid account is cleared to exactly zero. -/
theorem c6_monotone_liabilities_witness :
    (wOutC5b.newUnclaimed.getD 0 defaultUnclaimed).amount = 0 :=
  ((c6_monotone_liabilities wCfgC5 wEnvC5b wOutC5b (by decide) (by decide)
      (by rfl)).1 0 (by decide)).2.2 (by decide) (by decide) (by decide)

/-- C5 counterexample: a recipient's unclaimed entry of 5 whose receiving
account exists and is unfrozen but has the wrong recorded owner makes the
self-healing pass fail the whole call with `RecipientATAWrongOwner` — the
pass does not silently no-op for a recipient entry. -/
theorem c5_heal_counterexample :
    execute_split wCfgC5 wEnvC5 = .error .RecipientATAWrongOwner := by
  rfl

/-- C5 (amended): during the self-healing pass the silent no-op on an
existing, unfrozen account that fails owner/asset validation applies only to
the protocol unclaimed amount; for a recipient's unclaimed entry such an
account must pass full validation or the call fails — in every successful
call, every nonzero recipient liability whose account is present and unfrozen
passed `validate_and_send_to_recipient`, while an invalid protocol account
leaves the protocol liability untouched with no error. -/
theorem c5_heal_silent_noop (cfg : SplitConfig) (env : ExecEnv) (out : ExecOut)
    (hrec : cfg.recipient_count ≤ cfg.recipients.length)
    (hunc : cfg.recipient_count ≤ cfg.unclaimed_amounts.length)
    (h : execute_split cfg env = .ok out) :
    (∀ i, i < cfg.recipient_count →
      0 < (cfg.unclaimed_amounts.getD i defaultUnclaimed).amount →
      (env.remaining.getD i defaultAta).dataEmpty = false →
      is_account_frozen (env.remaining.getD i defaultAta) = false →
      validate_and_send_to_recipient (env.remaining.getD i defaultAta)
        (cfg.recipients.getD i defaultRecipient) env.mintKey env.tokenProg =
        .ok ()) ∧
    ((lastAta env.remaining).dataEmpty = false →
      is_account_frozen (lastAta env.remaining) = false →
      ¬(validOwnerProg (lastAta env.remaining) ∧
        (lastAta env.remaining).deserOk = true ∧
        (lastAta env.remaining).tokOwner = env.feeWallet ∧
        (lastAta env.remaining).tokMint = env.mintKey) →
      out.newProtocolUnclaimed = cfg.protocol_unclaimed ∧
        out.protocolUnclaimedCleared = 0 ∧ out.protocolFeeSent = 0) := by
  obtain ⟨_, _, _, hp4⟩ := exec_protocol_facts h
  refine ⟨?_, hp4⟩
  intro i hi hpos hpe hpf
  obtain ⟨mid, hmid, hheal⟩ := exec_index_facts hrec hunc h hi
  have hmge : 0 < mid.amount := by
    rcases hmid with hm | ⟨hm, _⟩
    · rw [hm]
      exact hpos
    · omega
  rcases hheal with ⟨_, hcond⟩ | ⟨_, _, _, _, hval⟩
  · rcases hcond with hc | hc | hc
    · omega
    · rw [hpe] at hc
      cases hc
    · rw [hpf] at hc
      cases hc
  · exact hval

/-- Witness for the amended C5 at a concrete input: the fixture liability of
5 with a present, unfrozen account passed full validation. -/
theorem c5_heal_silent_noop_witness :
    validate_and_send_to_recipient (wEnvC5b.remaining.getD 0 defaultAta)
      (wCfgC5.recipients.getD 0 defaultRecipient) wEnvC5b.mintKey
      wEnvC5b.tokenProg = .ok () :=
  (c5_heal_silent_noop wCfgC5 wEnvC5b wOutC5b (by decide) (by decide)
      (by rfl)).1 0 (by decide) (by decide) (by decide) (by decide)

end Cascade
